import Mathlib

/-!
# Shallow embedding of the LiveOpsMVP retrieval-and-context-assembly core

This file embeds, in Lean 4, the data model and the operations of the
LiveOpsMVP repository (`src/data/models.py`, `src/data/repository.py`,
`src/rag/indexing/indexes.py`, `src/rag/context/selector.py`,
`src/rag/embeddings/hybrid.py`, `src/rag/intent/analyzer.py`,
`src/rag/analysis/analyzer.py`) and proves or refutes the specification
claims about them.

Modelling conventions:
* Python floats are modelled as rationals (`ℚ`); the one value of
  `float` arithmetic the code actually produces besides finite numbers,
  `float('inf')`, is modelled by the dedicated type `PercentChange`.
* Python `datetime` values are modelled as `Int` minutes since an epoch:
  the code only compares timestamps and subtracts `timedelta`s measured
  in days/minutes, and both operations transport to `Int`.
* Python dicts are modelled as association lists in insertion order;
  assignment to a dict key is `dictSet` (replace if present, append
  otherwise), and `x in d` is `(alookup d x).isSome`.
* Python exceptions are modelled with `Except`/`Option`: a `KeyError` or
  `ValueError` raised by a method becomes an `Except.error`.
* `list.sort` / `sorted(...)` are stable sorts; they are modelled by
  `List.insertionSort`, which is also stable (a stable sort is uniquely
  determined by the key order), and whose structural recursion the kernel
  can evaluate on concrete inputs.
-/

namespace LiveOps

/-! ## Association-list model of Python dicts -/

/-- `d.get(key)` / `d[key]` lookup on a dict in insertion order. -/
def alookup {α : Type} : List (String × α) → String → Option α
  | [], _ => none
  | (k, v) :: t, key => if k = key then some v else alookup t key

/-- Replace the value at `key` if present; identity otherwise.
Used only where the Python code has already checked key presence. -/
def aset {α : Type} : List (String × α) → String → α → List (String × α)
  | [], _, _ => []
  | (k, v) :: t, key, val =>
    if k = key then (k, val) :: t else (k, v) :: aset t key val

/-- Python `d[key] = val`: replace if the key is present, append otherwise. -/
def dictSet {α : Type} (l : List (String × α)) (key : String) (val : α) :
    List (String × α) :=
  if (alookup l key).isSome then aset l key val else l ++ [(key, val)]

/-! ## Data model (`src/data/models.py`) -/

/-- Value of the derived `percent_change` attribute: a finite float or
`float('inf')` (the code produces no other non-finite value). -/
inductive PercentChange where
  | fin (q : ℚ)
  | inf
  deriving DecidableEq, Repr

/-- `LiveOpsChange.__init__` stored attributes (models.py lines 4-22).
`expected_impact` is a dict metric name → impact direction; timestamps
are `Int` minutes (see header). The lazily-populated `vector_embedding`
is never read by the verified operations and is omitted. -/
structure LiveOpsChange where
  change_id : String
  timestamp : Int
  category : String
  description : String
  expected_impact : List (String × String)
  config_diff : Option (List (String × String)) := none
  tags : List String := []
  deriving DecidableEq, Repr

instance : Inhabited LiveOpsChange :=
  ⟨{ change_id := "", timestamp := 0, category := "", description := "",
     expected_impact := [] }⟩

/-- `MetricMeasurement` stored attributes (models.py lines 36-58). -/
structure MetricMeasurement where
  change_id : String
  metric_name : String
  before_value : ℚ
  after_value : ℚ
  timestamp : Int
  time_window : String
  value : ℚ
  percent_change : PercentChange
  deriving DecidableEq, Repr

/-- `MetricMeasurement._calculate_percent_change` (models.py lines 55-58):
`if self.before_value == 0: return float('inf') if self.after_value > 0 else 0`;
otherwise `((after - before) / before) * 100`. -/
def calculatePercentChange (before_value after_value : ℚ) : PercentChange :=
  if before_value = 0 then
    (if 0 < after_value then .inf else .fin 0)
  else
    .fin (((after_value - before_value) / before_value) * 100)

/-- `MetricMeasurement.__init__` (models.py lines 37-53): stores the
arguments, sets `value = after_value` and computes `percent_change` once
via `_calculate_percent_change`. The record is never mutated afterwards
(the class has no other writes to these attributes). -/
def mkMetricMeasurement (change_id metric_name : String)
    (before_value after_value : ℚ) (timestamp : Int)
    (time_window : String := "24h") : MetricMeasurement :=
  { change_id := change_id
    metric_name := metric_name
    before_value := before_value
    after_value := after_value
    timestamp := timestamp
    time_window := time_window
    value := after_value
    percent_change := calculatePercentChange before_value after_value }

/-! ## Record store (`src/data/repository.py`) -/

/-- `KnowledgeRepository.__init__`: two append-only lists. -/
structure KnowledgeRepository where
  changes : List LiveOpsChange
  metrics : List MetricMeasurement
  deriving Repr

/-- `KnowledgeRepository.get_metrics_for_change` (repository.py lines 23-26):
all measurements whose foreign key matches, in insertion order.
(The Python method returns `to_dict()` serializations; the embedding keeps
the records themselves, the fields being identical.) -/
def KnowledgeRepository.get_metrics_for_change (repo : KnowledgeRepository)
    (change_id : String) : List MetricMeasurement :=
  repo.metrics.filter (fun m => m.change_id == change_id)

/-- The filter of `get_metric_history` (repository.py lines 48-54):
matching metric name and `start_date <= timestamp <= end_date`. -/
def metricInRange (metric_name : String) (start_date end_date : Int)
    (m : MetricMeasurement) : Bool :=
  m.metric_name == metric_name && decide (start_date ≤ m.timestamp)
    && decide (m.timestamp ≤ end_date)

/-- Comparison key of `metrics.sort(key=lambda x: x.timestamp)`. -/
def metricTsLe (a b : MetricMeasurement) : Prop := a.timestamp ≤ b.timestamp

instance : DecidableRel metricTsLe := fun a b =>
  inferInstanceAs (Decidable (a.timestamp ≤ b.timestamp))

instance : IsTotal MetricMeasurement metricTsLe :=
  ⟨fun a b => Int.le_total a.timestamp b.timestamp⟩

instance : IsTrans MetricMeasurement metricTsLe :=
  ⟨fun _ _ _ hab hbc => le_trans hab hbc⟩

/-- The in-range measurements sorted ascending by timestamp, as computed by
`get_metric_history` (Python `list.sort` is stable; `List.insertionSort`
is the stable sort of the embedding). -/
def sortedMetricsInRange (repo : KnowledgeRepository) (metric_name : String)
    (start_date end_date : Int) : List MetricMeasurement :=
  List.insertionSort metricTsLe
    (repo.metrics.filter (metricInRange metric_name start_date end_date))

/-- The `trend_analysis` dictionary of `get_metric_history`. -/
structure TrendAnalysis where
  start_value : ℚ
  end_value : ℚ
  percent_change : ℚ
  num_measurements : Nat
  deriving DecidableEq, Repr

/-- The dictionary returned by `get_metric_history`. -/
structure MetricHistory where
  values : List ℚ
  timestamps : List Int
  trend_analysis : TrendAnalysis
  deriving DecidableEq, Repr

/-- `KnowledgeRepository.get_metric_history` (repository.py lines 28-87):
filter by metric name and date range, sort ascending by timestamp, extract
values and timestamps, and compute the trend summary from the first and last
values of the sorted order (`percent_change` is
`(last - first) / first * 100` if `first != 0` else `0`; all fields are `0`
when no measurement matches). -/
def KnowledgeRepository.get_metric_history (repo : KnowledgeRepository)
    (metric_name : String) (start_date end_date : Int) : MetricHistory :=
  let sorted := sortedMetricsInRange repo metric_name start_date end_date
  let values := sorted.map (·.value)
  let timestamps := sorted.map (·.timestamp)
  let trend_analysis :=
    match values with
    | [] =>
      { start_value := 0, end_value := 0, percent_change := 0,
        num_measurements := 0 }
    | first_value :: rest =>
      let last_value := (first_value :: rest).getLast (List.cons_ne_nil _ _)
      { start_value := first_value
        end_value := last_value
        percent_change :=
          if first_value ≠ 0 then (last_value - first_value) / first_value * 100
          else 0
        num_measurements := (first_value :: rest).length }
  { values := values, timestamps := timestamps,
    trend_analysis := trend_analysis }

/-- The trend percent-change convention the spec claims (§4.1 referring to
§3): the data model's divide-by-zero convention applied to the first and
last values of the sorted order. Stated from the spec's words, to be
compared against the implementation. -/
def specTrendPercentChange (first_value last_value : ℚ) : PercentChange :=
  if first_value = 0 then
    (if 0 < last_value then .inf else .fin 0)
  else
    .fin ((last_value - first_value) / first_value * 100)

/-- Concrete repository for the C4 counterexample: two `revenue`
measurements, the earlier with value 0, the later with value 5. -/
def repoC4 : KnowledgeRepository :=
  { changes := []
    metrics := [mkMetricMeasurement "c1" "revenue" 1 0 1 "24h",
                mkMetricMeasurement "c2" "revenue" 1 5 2 "24h"] }

/-! ## Multi-index builder (`src/rag/indexing/indexes.py`) -/

/-- The impact directions enumerated by `build_metric_impact_index`
(indexes.py lines 33-37). -/
def impactDirections : List String := ["increase", "decrease", "neutral"]

/-- The metric names enumerated by `build_metric_impact_index`. -/
def impactMetrics : List String :=
  ["revenue", "dau", "retention", "session_length", "conversion_rate"]

/-- `metric_impact_index`: dict direction → (dict metric → list of change
positions). -/
abbrev MetricImpactIndex := List (String × List (String × List Nat))

/-- The initial `metric_impact_index` dict literal (indexes.py lines 33-37):
every direction maps to a dict sending every metric to `[]`. -/
def emptyMetricImpactIndex : MetricImpactIndex :=
  impactDirections.map (fun d => (d, impactMetrics.map (fun m => (m, []))))

/-- One `self.metric_impact_index[impact][metric].append(i)` step
(indexes.py line 41). `none` models the `KeyError` raised when `impact`
or `metric` is not a key of the respective dict. -/
def addImpact (idx : MetricImpactIndex) (impact metric : String) (i : Nat) :
    Option MetricImpactIndex :=
  match alookup idx impact with
  | none => none
  | some inner =>
    match alookup inner metric with
    | none => none
    | some lst => some (aset idx impact (aset inner metric (lst ++ [i])))

/-- The inner loop `for metric, impact in change.expected_impact.items()`
(indexes.py lines 40-41). -/
def addImpactsOfChange (idx : MetricImpactIndex) (i : Nat) :
    List (String × String) → Option MetricImpactIndex
  | [] => some idx
  | (metric, impact) :: rest =>
    match addImpact idx impact metric i with
    | none => none
    | some idx2 => addImpactsOfChange idx2 i rest

/-- The outer loop `for i, change in enumerate(self.knowledge_repo.changes)`
of `build_metric_impact_index` (indexes.py lines 39-41). -/
def buildMetricImpactIndexAux (idx : MetricImpactIndex) (i : Nat) :
    List LiveOpsChange → Option MetricImpactIndex
  | [] => some idx
  | c :: cs =>
    match addImpactsOfChange idx i c.expected_impact with
    | none => none
    | some idx2 => buildMetricImpactIndexAux idx2 (i + 1) cs

/-- `IndexBuilder.build_metric_impact_index` (indexes.py lines 31-41). -/
def buildMetricImpactIndex (repo : KnowledgeRepository) :
    Option MetricImpactIndex :=
  buildMetricImpactIndexAux emptyMetricImpactIndex 0 repo.changes

/-- `index.setdefault(key, []).append(i)` pattern of
`build_category_index` / `build_tag_index` (indexes.py lines 27-29, 64-67):
insert an empty list if the key is absent, then append `i`. -/
def dictAppendAt (idx : List (String × List Nat)) (key : String) (i : Nat) :
    List (String × List Nat) :=
  let idx1 := if (alookup idx key).isSome then idx else idx ++ [(key, [])]
  aset idx1 key ((alookup idx1 key).getD [] ++ [i])

/-- Loop of `IndexBuilder.build_category_index` (indexes.py lines 23-29). -/
def buildCategoryIndexAux (idx : List (String × List Nat)) (i : Nat) :
    List LiveOpsChange → List (String × List Nat)
  | [] => idx
  | c :: cs => buildCategoryIndexAux (dictAppendAt idx c.category i) (i + 1) cs

/-- `IndexBuilder.build_category_index`. -/
def buildCategoryIndex (repo : KnowledgeRepository) : List (String × List Nat) :=
  buildCategoryIndexAux [] 0 repo.changes

/-- Loop of `IndexBuilder.build_tag_index` (indexes.py lines 60-67). -/
def buildTagIndexAux (idx : List (String × List Nat)) (i : Nat) :
    List LiveOpsChange → List (String × List Nat)
  | [] => idx
  | c :: cs =>
    buildTagIndexAux (c.tags.foldl (fun acc tag => dictAppendAt acc tag i) idx)
      (i + 1) cs

/-- `IndexBuilder.build_tag_index`. -/
def buildTagIndex (repo : KnowledgeRepository) : List (String × List Nat) :=
  buildTagIndexAux [] 0 repo.changes

/-- Sort key of `build_temporal_index` (indexes.py lines 46-49):
`sorted(range(len(changes)), key=lambda i: changes[i].timestamp)`. -/
def idxTsLe (changes : List LiveOpsChange) (i j : Nat) : Prop :=
  (changes.getD i default).timestamp ≤ (changes.getD j default).timestamp

instance (changes : List LiveOpsChange) : DecidableRel (idxTsLe changes) :=
  fun i j => inferInstanceAs
    (Decidable ((changes.getD i default).timestamp
      ≤ (changes.getD j default).timestamp))

instance (changes : List LiveOpsChange) : IsTotal Nat (idxTsLe changes) :=
  ⟨fun i j => Int.le_total _ _⟩

instance (changes : List LiveOpsChange) : IsTrans Nat (idxTsLe changes) :=
  ⟨fun _ _ _ hab hbc => le_trans hab hbc⟩

/-- `IndexBuilder.build_temporal_index` (indexes.py lines 43-49): the
position list `range(len(changes))` stably sorted by timestamp. -/
def buildTemporalIndex (repo : KnowledgeRepository) : List Nat :=
  List.insertionSort (idxTsLe repo.changes) (List.range repo.changes.length)

/-- An `IndexBuilder` instance after `build_all_indexes` (indexes.py
lines 5-21). -/
structure IndexBuilder where
  knowledge_repo : KnowledgeRepository
  category_index : List (String × List Nat)
  metric_impact_index : MetricImpactIndex
  temporal_index : List Nat
  tag_index : List (String × List Nat)
  deriving Repr

/-- `IndexBuilder.__init__`, which runs `build_all_indexes` (indexes.py
lines 6-21). The only build step that can raise is
`build_metric_impact_index` (a `KeyError`, modelled as `Except.error`).
The `weekly_buckets` side table of `build_temporal_index`, keyed by
`strftime("%Y-%U")` calendar weeks and read by no verified operation, is
outside the embedding of timestamps as abstract minutes and is omitted. -/
def IndexBuilder.build (repo : KnowledgeRepository) : Except String IndexBuilder :=
  match buildMetricImpactIndex repo with
  | none => .error "KeyError"
  | some mii => .ok
    { knowledge_repo := repo
      category_index := buildCategoryIndex repo
      metric_impact_index := mii
      temporal_index := buildTemporalIndex repo
      tag_index := buildTagIndex repo }

/-- A `{"change": ..., "metrics": ...}` result dict of the search methods. -/
structure SearchHit where
  change : LiveOpsChange
  metrics : List MetricMeasurement
  deriving DecidableEq, Repr

/-- The result entry built for one index position (indexes.py lines 75-81):
the change at that position paired with its measurements. -/
def mkHit (ib : IndexBuilder) (idx : Nat) : SearchHit :=
  let change := ib.knowledge_repo.changes.getD idx default
  { change := change
    metrics := ib.knowledge_repo.get_metrics_for_change change.change_id }

/-- `IndexBuilder.search_by_category` (indexes.py lines 69-83). -/
def IndexBuilder.search_by_category (ib : IndexBuilder) (category : String) :
    List SearchHit :=
  match alookup ib.category_index category with
  | none => []
  | some idxs => idxs.foldl (fun results idx => results ++ [mkHit ib idx]) []

/-- `IndexBuilder.search_by_tag` (indexes.py lines 85-99). -/
def IndexBuilder.search_by_tag (ib : IndexBuilder) (tag : String) :
    List SearchHit :=
  match alookup ib.tag_index tag with
  | none => []
  | some idxs => idxs.foldl (fun results idx => results ++ [mkHit ib idx]) []

/-- `IndexBuilder.search_by_metric_impact` (indexes.py lines 101-115). -/
def IndexBuilder.search_by_metric_impact (ib : IndexBuilder)
    (metric impact : String) : List SearchHit :=
  match alookup ib.metric_impact_index impact with
  | none => []
  | some inner =>
    match alookup inner metric with
    | none => []
    | some idxs => idxs.foldl (fun results idx => results ++ [mkHit ib idx]) []

/-- The loop of `search_by_date_range` (indexes.py lines 119-131): walk the
time-sorted positions; append in-range records, `break` at the first record
whose timestamp exceeds `end_date`, skip the rest. -/
def dateRangeWalk (ib : IndexBuilder) (start_date end_date : Int) :
    List Nat → List SearchHit
  | [] => []
  | idx :: rest =>
    let change := ib.knowledge_repo.changes.getD idx default
    if start_date ≤ change.timestamp ∧ change.timestamp ≤ end_date then
      mkHit ib idx :: dateRangeWalk ib start_date end_date rest
    else if end_date < change.timestamp then []
    else dateRangeWalk ib start_date end_date rest

/-- `IndexBuilder.search_by_date_range` (indexes.py lines 117-132). -/
def IndexBuilder.search_by_date_range (ib : IndexBuilder)
    (start_date end_date : Int) : List SearchHit :=
  dateRangeWalk ib start_date end_date ib.temporal_index

/-- Well-formedness of an accumulated `metric_impact_index`: the outer keys
are exactly the impact directions and every inner dict's keys are exactly
the metric names. It holds for the initial dict literal and is preserved by
every `append` step, which is why a `KeyError` occurs exactly at an
out-of-enumeration key. -/
def MIIwf (idx : MetricImpactIndex) : Prop :=
  (∀ d, (alookup idx d).isSome = true ↔ d ∈ impactDirections) ∧
  (∀ d inner, alookup idx d = some inner →
    ∀ m, (alookup inner m).isSome = true ↔ m ∈ impactMetrics)

/-- The precondition C9 states for one `expected_impact` item
`(metric, impact)`: the direction and the metric name are both among the
keys enumerated by `build_metric_impact_index`. -/
def goodImpactPair (p : String × String) : Prop :=
  p.2 ∈ impactDirections ∧ p.1 ∈ impactMetrics

instance (p : String × String) : Decidable (goodImpactPair p) :=
  inferInstanceAs (Decidable (_ ∧ _))

/-- Concrete repository for witnesses: one change (category `"BOGO"`,
tag `"sale"`, expected impact `revenue → increase`), one measurement. -/
def repoIdx : KnowledgeRepository :=
  { changes := [{ change_id := "c1", timestamp := 1, category := "BOGO",
                  description := "BOGO sale on gems",
                  expected_impact := [("revenue", "increase")],
                  tags := ["sale"] }]
    metrics := [mkMetricMeasurement "c1" "revenue" 10000 12000 2 "24h"] }

/-- The index builder over `repoIdx` (its construction succeeds; see the
C9 witness). -/
def ibIdx : IndexBuilder :=
  { knowledge_repo := repoIdx
    category_index := buildCategoryIndex repoIdx
    metric_impact_index := (buildMetricImpactIndex repoIdx).getD []
    temporal_index := buildTemporalIndex repoIdx
    tag_index := buildTagIndex repoIdx }

/-- A repository whose single change declares an impact direction outside
`{increase, decrease, neutral}`: building its indexes raises `KeyError`. -/
def repoC9bad : KnowledgeRepository :=
  { changes := [{ change_id := "c2", timestamp := 1, category := "Sale",
                  description := "bad direction",
                  expected_impact := [("revenue", "skyrocket")] }]
    metrics := [] }

/-! ## Intent analyzer (`src/rag/intent/analyzer.py`) -/

/-- `needle` is a prefix of `hay` (Python `str.startswith`), on character
lists. -/
def listStarts (needle hay : List Char) : Bool :=
  match needle, hay with
  | [], _ => true
  | _ :: _, [] => false
  | a :: as_, b :: bs => a == b && listStarts as_ bs

/-- Python substring containment `needle in hay`, on character lists. -/
def strHasSub (needle : List Char) : List Char → Bool
  | [] => needle.isEmpty
  | c :: t => listStarts needle (c :: t) || strHasSub needle t

/-- `query.lower()`: per-character lowering of the character sequence
(the configured cue words and queries are ASCII). -/
def pyLower (s : String) : List Char := s.data.map Char.toLower

/-- The `entities` dict produced by `_extract_entities`: entity-type name →
ordered list of matched surface strings. -/
abbrev Entities := List (String × List String)

/-- Python `key in entities`. -/
def keyMem (entities : Entities) (key : String) : Bool :=
  (alookup entities key).isSome

/-- `IntentAnalyzer._match_intent_rules` (analyzer.py lines 153-190): the
five rules checked in order, first match returning; confidences are the
literal floats 0.9 and 0.8. -/
def matchIntentRules (query : String) (entities : Entities) :
    Option (String × ℚ) :=
  let query_lower := pyLower query
  if keyMem entities "comparison_targets"
      || ["compare", "vs", "versus"].any
          (fun x => strHasSub x.data query_lower) then
    some ("comparative_analysis", 9 / 10)
  else if keyMem entities "effect" && keyMem entities "time_period" then
    some ("causal_analysis", 9 / 10)
  else if keyMem entities "objective"
      || ["how can", "what should", "suggest"].any
          (fun p => listStarts p.data query_lower) then
    some ("recommendation", 9 / 10)
  else if keyMem entities "metric"
      && ["trend", "over time", "changed", "history"].any
          (fun x => strHasSub x.data query_lower) then
    some ("metric_trend", 9 / 10)
  else if keyMem entities "category" then
    some ("category_analysis", 4 / 5)
  else
    none

/-- `IntentAnalyzer._determine_intent` (analyzer.py lines 127-151): rule
matching first; otherwise the semantic fallback when an embedding model and
example embeddings are available (an external numeric component, abstracted
as the `semanticMatch` input); otherwise `("general_query", 0.5)`. -/
def determineIntent (query : String) (entities : Entities)
    (semanticMatch : Option (String × ℚ)) : String × ℚ :=
  match matchIntentRules query entities with
  | some r => r
  | none =>
    match semanticMatch with
    | some r => r
    | none => ("general_query", 1 / 2)

/-! ## Change analyzer (`src/rag/analysis/analyzer.py`) -/

/-- Python `float` comparison `pc > q` where `pc` may be `float('inf')`. -/
def PercentChange.gtQ : PercentChange → ℚ → Bool
  | .inf, _ => true
  | .fin x, q => decide (q < x)

/-- Python `float` comparison `pc < q` where `pc` may be `float('inf')`. -/
def PercentChange.ltQ : PercentChange → ℚ → Bool
  | .inf, _ => false
  | .fin x, q => decide (x < q)

/-- Python `lo <= pc <= hi` where `pc` may be `float('inf')`. -/
def PercentChange.betweenQ (p : PercentChange) (lo hi : ℚ) : Bool :=
  match p with
  | .inf => false
  | .fin x => decide (lo ≤ x) && decide (x ≤ hi)

/-- One entry of the `impact_analysis` dict (analyzer.py lines 37-55). -/
structure ImpactEntry where
  expected : String
  actual : String
  percent_change : PercentChange
  before : ℚ
  after : ℚ
  matched_expectation : Bool
  deriving DecidableEq, Repr

/-- The per-metric body of the `impact_analysis` loop (analyzer.py lines
38-55): expected direction from `expected_impact` (default `"neutral"`),
actual direction from the ±5 percent thresholds, and the match flag. -/
def impactEntryFor (change : LiveOpsChange) (m : MetricMeasurement) :
    ImpactEntry :=
  let expected := (alookup change.expected_impact m.metric_name).getD "neutral"
  let actual :=
    if PercentChange.gtQ m.percent_change 5 then "increase"
    else if PercentChange.ltQ m.percent_change (-5) then "decrease"
    else "neutral"
  { expected := expected
    actual := actual
    percent_change := m.percent_change
    before := m.before_value
    after := m.after_value
    matched_expectation := expected == actual
      || (expected == "neutral" && PercentChange.betweenQ m.percent_change (-5) 5) }

/-- The `impact_analysis` dict accumulated in metric order. -/
def buildImpactAnalysis (change : LiveOpsChange)
    (metrics : List MetricMeasurement) : List (String × ImpactEntry) :=
  metrics.foldl (fun acc m => dictSet acc m.metric_name (impactEntryFor change m)) []

/-- The successful return dict of `analyze_change_impact` (offline branch,
analyzer.py lines 171-177). -/
structure AnalysisOk where
  change : LiveOpsChange
  impact_analysis : List (String × ImpactEntry)
  recent_changes : List LiveOpsChange
  similar_changes : List LiveOpsChange
  deriving Repr

/-- Return value of `analyze_change_impact`: the `{"error": ...}` dict or
the analysis dict. -/
inductive AnalysisResult where
  | error (msg : String)
  | ok (r : AnalysisOk)
  deriving Repr

/-- `ChangeAnalyzer.analyze_change_impact` (analyzer.py lines 23-177) in the
offline branch (`llm_service` absent; the text-generation service is an
external collaborator per spec §6): look up the change by id with
`next(..., None)` and return `{"error": "Change not found"}` when absent;
otherwise assemble the impact analysis, the changes of the 3 days before
(ending 5 minutes before the change), and up to 5 same-category changes
excluding the change itself. The method assigns to no attribute of
`self.knowledge_repo`; its embedding passes the repository state through
unchanged, which the returned pair makes explicit. -/
def ChangeAnalyzer.analyze_change_impact (repo : KnowledgeRepository)
    (ib : IndexBuilder) (change_id : String) :
    AnalysisResult × KnowledgeRepository :=
  match repo.changes.find? (fun c => c.change_id == change_id) with
  | none => (.error "Change not found", repo)
  | some change =>
    let metrics := repo.get_metrics_for_change change_id
    let impact_analysis := buildImpactAnalysis change metrics
    let start_date := change.timestamp - 3 * 24 * 60
    let end_date := change.timestamp - 5
    let recent_changes := ib.search_by_date_range start_date end_date
    let category_changes := ib.search_by_category change.category
    let similar_category_changes :=
      category_changes.filter (fun r => r.change.change_id != change_id)
    (.ok { change := change
           impact_analysis := impact_analysis
           recent_changes := recent_changes.map (fun r => r.change)
           similar_changes :=
             (similar_category_changes.take 5).map (fun r => r.change) },
     repo)

/-! ## Hybrid search (`src/rag/embeddings/hybrid.py`) -/

/-- A vector-store document (`vectorstore.py` lines 11-28). The embedding
vector is consumed only by the abstracted numeric similarity layer; Python
`Document.__eq__` compares ids. -/
structure Document where
  id : String
  text : String
  metadata : List (String × String)
  deriving DecidableEq, Repr

/-- The mutable weight configuration of a `HybridSearcher`. -/
structure HybridState where
  semantic_weight : ℚ
  keyword_weight : ℚ
  deriving DecidableEq, Repr

/-- A `SearchResult` dataclass instance (hybrid.py lines 13-19). -/
structure SearchResult where
  document : Document
  semantic_score : ℚ
  keyword_score : ℚ
  combined_score : ℚ
  deriving DecidableEq, Repr

/-- The dict comprehension `{doc.id: score for doc, score in semantic_results}`
(hybrid.py line 112): built in order, later duplicates overwriting. -/
def buildSemanticScores (semantic_results : List (Document × ℚ)) :
    List (String × ℚ) :=
  semantic_results.foldl (fun acc ds => dictSet acc ds.1.id ds.2) []

/-- Soft normalization of a raw keyword score (hybrid.py lines 123-125):
`x / (1 + x)` when `x > 1`, else `x`. -/
def softNormalize (x : ℚ) : ℚ := if 1 < x then x / (1 + x) else x

/-- The metadata post-filter (hybrid.py lines 140-147): every key/value
pair present and equal. -/
def metadataMatches (doc : Document) (filters : List (String × String)) :
    Bool :=
  filters.all (fun kv => alookup doc.metadata kv.1 == some kv.2)

/-- The result-assembly loop of `search` (hybrid.py lines 117-154) over
`zip(self.vector_store.documents, keyword_scores)`: inclusion floor 0.01 on
either component score, optional combined-score threshold, optional
metadata filter (a `{}` filter dict is falsy and skipped, like `None`). -/
def combineLoop (st : HybridState) (semantic_scores : List (String × ℚ))
    (score_threshold : Option ℚ)
    (metadata_filters : Option (List (String × String))) :
    List (Document × ℚ) → List SearchResult
  | [] => []
  | (doc, kwRaw) :: rest =>
    let semantic_score := (alookup semantic_scores doc.id).getD 0
    let keyword_score := softNormalize kwRaw
    if 1 / 100 < semantic_score ∨ 1 / 100 < keyword_score then
      let combined_score := st.semantic_weight * semantic_score
        + st.keyword_weight * keyword_score
      if (match score_threshold with
          | some th => decide (combined_score < th)
          | none => false) then
        combineLoop st semantic_scores score_threshold metadata_filters rest
      else if (match metadata_filters with
          | some fs => !fs.isEmpty && !(metadataMatches doc fs)
          | none => false) then
        combineLoop st semantic_scores score_threshold metadata_filters rest
      else
        { document := doc, semantic_score := semantic_score,
          keyword_score := keyword_score, combined_score := combined_score }
          :: combineLoop st semantic_scores score_threshold metadata_filters rest
    else
      combineLoop st semantic_scores score_threshold metadata_filters rest

/-- Sort key of `results.sort(key=lambda x: x.combined_score, reverse=True)`
(hybrid.py line 157): descending by combined score. -/
def combinedGe (x y : SearchResult) : Prop :=
  y.combined_score ≤ x.combined_score

instance : DecidableRel combinedGe := fun x y =>
  inferInstanceAs (Decidable (y.combined_score ≤ x.combined_score))

instance : IsTotal SearchResult combinedGe :=
  ⟨fun x y => le_total y.combined_score x.combined_score⟩

instance : IsTrans SearchResult combinedGe :=
  ⟨fun _ _ _ hab hbc => le_trans hbc hab⟩

/-- `HybridSearcher.search` (hybrid.py lines 85-159). The semantic
similarity scores (computed for every stored document by the vector store)
and the raw per-document TF-IDF keyword scores are numeric inputs produced
by external components (numpy / scikit-learn, spec §2 and §6); `search`
joins them by document id resp. position, assembles results through
`combineLoop`, sorts descending by combined score (Python `list.sort` with
`reverse=True` is stable, as is `insertionSort` on the flipped relation)
and truncates to the top `k`. -/
def HybridSearcher.search (st : HybridState) (documents : List Document)
    (semantic_results : List (Document × ℚ)) (keyword_scores : List ℚ)
    (k : Nat) (score_threshold : Option ℚ)
    (metadata_filters : Option (List (String × String))) : List SearchResult :=
  let semantic_scores := buildSemanticScores semantic_results
  let results := combineLoop st semantic_scores score_threshold metadata_filters
    (documents.zip keyword_scores)
  (List.insertionSort combinedGe results).take k

/-- `HybridSearcher.adjust_weights` (hybrid.py lines 161-178): the two
validations, then the two assignments. The result pair is (the raised
`ValueError` message, if any; the post-state). `1e-6` is the rational
`1/1000000` under the ℚ model of floats. -/
def HybridSearcher.adjust_weights (st : HybridState)
    (semantic_weight keyword_weight : ℚ) : Option String × HybridState :=
  if ¬ (0 ≤ semantic_weight ∧ semantic_weight ≤ 1)
      ∨ ¬ (0 ≤ keyword_weight ∧ keyword_weight ≤ 1) then
    (some "Weights must be between 0 and 1", st)
  else if 1 / 1000000 < |semantic_weight + keyword_weight - 1| then
    (some "Weights must sum to 1", st)
  else
    (none, { semantic_weight := semantic_weight,
             keyword_weight := keyword_weight })

/-- The weight validation of `HybridSearcher.__init__` (hybrid.py lines
39-47): identical checks, then the weights are stored. -/
def HybridSearcher.mkState (semantic_weight keyword_weight : ℚ) :
    Except String HybridState :=
  if ¬ (0 ≤ semantic_weight ∧ semantic_weight ≤ 1)
      ∨ ¬ (0 ≤ keyword_weight ∧ keyword_weight ≤ 1) then
    .error "Weights must be between 0 and 1"
  else if 1 / 1000000 < |semantic_weight + keyword_weight - 1| then
    .error "Weights must sum to 1"
  else
    .ok { semantic_weight := semantic_weight,
          keyword_weight := keyword_weight }

/-- Concrete document for the hybrid-search witnesses. -/
def docA : Document := { id := "d1", text := "alpha change", metadata := [] }

/-- Second concrete document; its two component scores stay at 0. -/
def docB : Document := { id := "d2", text := "beta change", metadata := [] }

/-- The default weight configuration (`semantic_weight=0.7`,
`keyword_weight=0.3`). -/
def stHybrid : HybridState :=
  { semantic_weight := 7 / 10, keyword_weight := 3 / 10 }

/-! ## Context selector (`src/rag/context/selector.py`) -/

/-- The dynamic context values handled by `_estimate_context_tokens` and
`_trim_context` (selector.py lines 392-439): scalars (str/int/float/bool,
collapsed to their `str()` rendering; a falsy scalar renders empty),
lists/tuples, and dicts with string keys; `None` is represented by
`Option.none` at the rule level. -/
inductive CtxData where
  | atom (s : String)
  | list (items : List CtxData)
  | dict (items : List (String × CtxData))
  deriving Repr

/-- `TokenCounter.estimate_tokens` (token_counter.py lines 14-23):
`len(text) // char_to_token_ratio` with the default ratio 4. -/
def tokenEstimate (s : String) : Nat := s.length / 4

mutual
/-- `ContextSelector._estimate_context_tokens` (selector.py lines 392-407),
parametrized by the scalar token estimator `tc` (the production counter is
`tokenEstimate`): scalars are estimated directly, collections sum their
children, dict entries cost key plus value. -/
def estimateTokens (tc : String → Nat) : CtxData → Nat
  | .atom s => tc s
  | .list items => estimateTokensList tc items
  | .dict items => estimateTokensDict tc items

/-- Sum of `_estimate_context_tokens` over list items. -/
def estimateTokensList (tc : String → Nat) : List CtxData → Nat
  | [] => 0
  | d :: rest => estimateTokens tc d + estimateTokensList tc rest

/-- Sum of `_estimate_context_tokens` over dict entries (key + value). -/
def estimateTokensDict (tc : String → Nat) : List (String × CtxData) → Nat
  | [] => 0
  | (k, v) :: rest => (tc k + estimateTokens tc v) + estimateTokensDict tc rest
end

/-- List branch of `ContextSelector._trim_context` (selector.py lines
413-423): keep items while the running token sum stays within
`max_tokens`, `break` at the first that does not fit. -/
def trimList (tc : String → Nat) (max_tokens : Int) :
    List CtxData → Int → List CtxData
  | [], _ => []
  | item :: rest, tokens =>
    let item_tokens : Int := estimateTokens tc item
    if tokens + item_tokens ≤ max_tokens then
      item :: trimList tc max_tokens rest (tokens + item_tokens)
    else []

/-- Dict branch of `_trim_context` (selector.py lines 424-437). -/
def trimDict (tc : String → Nat) (max_tokens : Int) :
    List (String × CtxData) → Int → List (String × CtxData)
  | [], _ => []
  | (key, value) :: rest, tokens =>
    let item_tokens : Int := tc key + estimateTokens tc value
    if tokens + item_tokens ≤ max_tokens then
      (key, value) :: trimDict tc max_tokens rest (tokens + item_tokens)
    else []

/-- `ContextSelector._trim_context` (selector.py lines 409-439): scalars
and other values are returned unchanged, collections are truncated
greedily. -/
def trimContext (tc : String → Nat) (data : CtxData) (max_tokens : Int) :
    CtxData :=
  match data with
  | .atom s => .atom s
  | .list items => .list (trimList tc max_tokens items 0)
  | .dict items => .dict (trimDict tc max_tokens items 0)

/-- Python truthiness of a context value (`if context_data:`): non-empty
collections and non-empty scalar renderings. -/
def ctxTruthy : CtxData → Bool
  | .atom s => !(s == "")
  | .list items => !items.isEmpty
  | .dict items => !items.isEmpty

/-- One resolved rule of the selection policy in priority order: its
`type`, its `required` flag, and the context value the matching
`_get_context_for_rule` handler returns for the current repository and
intent (`none` for Python `None`). The handlers are repository/config
lookups whose results enter the budget accounting only through this value
and its estimated token cost. -/
structure CRule where
  type : String
  required : Bool
  context_data : Option CtxData
  deriving Repr

/-- The budget-accounting loop of `select_context` (selector.py lines
79-105) over the resolved rules in priority order, threading the `context`
dict and the `used_tokens` counter: a fetched truthy value is added in full
when it fits the available budget or the rule is required; afterwards, if
the counter exceeds the budget and the rule is not required, the entry is
replaced by a trimmed copy with budget
`available_tokens - (used_tokens - context_tokens)` and the counter is
reset to `available_tokens`. -/
def selectLoop (tc : String → Nat) (available_tokens : Int) :
    List CRule → List (String × CtxData) → Int →
      List (String × CtxData) × Int
  | [], context, used_tokens => (context, used_tokens)
  | r :: rest, context, used_tokens =>
    match r.context_data with
    | none => selectLoop tc available_tokens rest context used_tokens
    | some context_data =>
      if ctxTruthy context_data = true then
        let context_tokens : Int := estimateTokens tc context_data
        let st1 :=
          if used_tokens + context_tokens ≤ available_tokens
              ∨ r.required = true then
            (dictSet context r.type context_data, used_tokens + context_tokens)
          else (context, used_tokens)
        if available_tokens < st1.2 ∧ ¬ r.required = true then
          selectLoop tc available_tokens rest
            (dictSet st1.1 r.type
              (trimContext tc context_data
                (available_tokens - (st1.2 - context_tokens))))
            available_tokens
        else
          selectLoop tc available_tokens rest st1.1 st1.2
      else selectLoop tc available_tokens rest context used_tokens

/-- `ContextSelector.select_context` (selector.py lines 46-106): resolve
`available_tokens = max_tokens - reserved_tokens` and run the rule loop
from an empty context dict and a zero counter. The per-intent resolution
(`priority_order` plus `next(r for r in rules if r["type"] == ...)`)
produces the `rules` argument in priority order. -/
def select_context (tc : String → Nat) (max_tokens reserved_tokens : Int)
    (rules : List CRule) : List (String × CtxData) × Int :=
  let available_tokens := max_tokens - reserved_tokens
  selectLoop tc available_tokens rules [] 0

/-- The total estimated token cost of the values of a selected context
dict (the loop counts entry values, not the outer keys). -/
def contextTokens (tc : String → Nat) (context : List (String × CtxData)) :
    Int :=
  context.foldr (fun kv acc => (estimateTokens tc kv.2 : Int) + acc) 0

/-- A 60-character string: 15 estimated tokens. -/
def s60 : String := String.mk (List.replicate 60 'x')

/-- A 20-character string: 5 estimated tokens. -/
def s20 : String := String.mk (List.replicate 20 'y')

/-- Rules for the C2 counterexample under budget 10: a required rule
costing 15 tokens, then a non-required list of six 5-token items. -/
def rulesC2 : List CRule :=
  [{ type := "a", required := true, context_data := some (.atom s60) },
   { type := "b", required := false,
     context_data := some (.list (List.replicate 6 (.atom s20))) }]

/-- Rules for the C2 witness: only the non-required list rule. -/
def rulesC2nr : List CRule :=
  [{ type := "b", required := false,
     context_data := some (.list (List.replicate 6 (.atom s20))) }]

end LiveOps

/-! ## Helper lemmas about the dict model -/

theorem LiveOps.alookup_aset {α : Type} (l : List (String × α)) (k k' : String)
    (v : α) :
    alookup (aset l k v) k' =
      if k' = k then (if (alookup l k).isSome then some v else none)
      else alookup l k' := by
  induction l with
  | nil => simp [aset, alookup]
  | cons hd t ih =>
    obtain ⟨hk, hv⟩ := hd
    by_cases h1 : hk = k
    · subst h1
      by_cases h2 : k' = hk
      · subst h2
        simp [aset, alookup]
      · have h2' : ¬ hk = k' := fun h => h2 h.symm
        simp [aset, alookup, h2, h2']
    · by_cases h2 : hk = k'
      · subst h2
        simp [aset, alookup, h1]
      · simp [aset, alookup, h1, h2, ih]

theorem LiveOps.alookup_append {α : Type} (l₁ l₂ : List (String × α))
    (k : String) :
    alookup (l₁ ++ l₂) k =
      match alookup l₁ k with
      | some v => some v
      | none => alookup l₂ k := by
  induction l₁ with
  | nil => simp [alookup]
  | cons hd t ih =>
    obtain ⟨hk, hv⟩ := hd
    by_cases h : hk = k <;> simp [alookup, h, ih]

theorem LiveOps.alookup_dictSet_ne {α : Type} (l : List (String × α))
    (k k' : String) (v : α) (h : k' ≠ k) :
    alookup (dictSet l k v) k' = alookup l k' := by
  unfold dictSet
  by_cases hs : (alookup l k).isSome
  · simp [hs, alookup_aset, h]
  · simp [hs, alookup_append]
    cases hl : alookup l k' with
    | some w => simp
    | none => simp [alookup, Ne.symm h]

theorem LiveOps.foldl_push_eq_map {α β : Type} (f : α → β) (l : List α)
    (acc : List β) :
    l.foldl (fun r x => r ++ [f x]) acc = acc ++ l.map f := by
  induction l generalizing acc with
  | nil => simp
  | cons a t ih => simp [ih]

theorem LiveOps.map_getD_range {α : Type} [Inhabited α] (l : List α) :
    (List.range l.length).map (fun i => l.getD i default) = l := by
  induction l with
  | nil => simp
  | cons a t ih =>
    rw [List.length_cons, List.range_succ_eq_map, List.map_cons, List.map_map]
    refine congrArg (a :: ·) ?_
    rw [show ((fun i => (a :: t).getD i default) ∘ Nat.succ)
        = (fun i => t.getD i default) from rfl]
    exact ih

/-- C1: for every `MetricMeasurement` constructed with before value `b` and
after value `a`, the stored `percent_change` is `((a-b)/b)*100` when `b ≠ 0`,
`+∞` when `b = 0 ∧ a > 0`, and `0` when `b = 0 ∧ a ≤ 0`; it is computed at
construction from the stored before/after values (and, the structure being
immutable, never changes afterwards). -/
theorem LiveOps.C1_percent_change (cid mn : String) (b a : ℚ) (ts : Int)
    (tw : String) :
    (b ≠ 0 → (LiveOps.mkMetricMeasurement cid mn b a ts tw).percent_change
      = .fin (((a - b) / b) * 100)) ∧
    (b = 0 → 0 < a →
      (LiveOps.mkMetricMeasurement cid mn b a ts tw).percent_change = .inf) ∧
    (b = 0 → a ≤ 0 →
      (LiveOps.mkMetricMeasurement cid mn b a ts tw).percent_change = .fin 0) ∧
    (LiveOps.mkMetricMeasurement cid mn b a ts tw).percent_change
      = LiveOps.calculatePercentChange
        (LiveOps.mkMetricMeasurement cid mn b a ts tw).before_value
        (LiveOps.mkMetricMeasurement cid mn b a ts tw).after_value := by
  refine ⟨fun hb => ?_, fun hb ha => ?_, fun hb ha => ?_, rfl⟩
  · simp [LiveOps.mkMetricMeasurement, LiveOps.calculatePercentChange, hb]
  · simp [LiveOps.mkMetricMeasurement, LiveOps.calculatePercentChange, hb, ha]
  · simp [LiveOps.mkMetricMeasurement, LiveOps.calculatePercentChange, hb,
      not_lt.mpr ha]

/-- Witness for C1 at concrete inputs: `b = 0, a = 5` gives `+∞`, and
`b = 10, a = 12` gives `20`. -/
theorem LiveOps.C1_percent_change_witness :
    (LiveOps.mkMetricMeasurement "c1" "revenue" 0 5 0 "24h").percent_change
        = .inf ∧
    (LiveOps.mkMetricMeasurement "c1" "revenue" 10 12 0 "24h").percent_change
        = .fin 20 := by
  constructor
  · exact (LiveOps.C1_percent_change "c1" "revenue" 0 5 0 "24h").2.1 rfl (by norm_num)
  · have h := (LiveOps.C1_percent_change "c1" "revenue" 10 12 0 "24h").1 (by norm_num)
    rw [h]
    norm_num

/-- C4 counterexample: for the repository `repoC4` (sorted values `[0, 5]`),
the code computes trend `percent_change = 0` although the data model's
divide-by-zero convention (first value `0`, last value `5 > 0`) demands
`+∞`: `get_metric_history` does NOT use the §3 convention. -/
theorem LiveOps.C4_counterexample :
    (LiveOps.repoC4.get_metric_history "revenue" 0 10).values = [0, 5] ∧
    (LiveOps.repoC4.get_metric_history "revenue" 0 10).trend_analysis.percent_change
      = 0 ∧
    LiveOps.specTrendPercentChange 0 5 = LiveOps.PercentChange.inf ∧
    LiveOps.PercentChange.fin
        (LiveOps.repoC4.get_metric_history "revenue" 0 10).trend_analysis.percent_change
      ≠ LiveOps.specTrendPercentChange 0 5 := by
  refine ⟨by decide, by decide, by decide, by decide⟩

/-- C4 (amended): `get_metric_history` returns the matching measurements
sorted ascending by timestamp (a stable sort of — hence a permutation of —
the filtered list), with values/timestamps extracted in that order; the
trend summary takes its start/end values and count from that sorted order
and computes `percent_change = (last - first)/first * 100` when the first
value is nonzero and `0` whenever the first value is `0` (regardless of the
sign of the last value — not the data model's `+∞` convention); all summary
fields are `0` when no measurement matches. -/
theorem LiveOps.C4_sorted_history (repo : LiveOps.KnowledgeRepository)
    (name : String) (s e : Int) :
    (repo.get_metric_history name s e).values
        = (LiveOps.sortedMetricsInRange repo name s e).map (fun m => m.value) ∧
    (repo.get_metric_history name s e).timestamps
        = (LiveOps.sortedMetricsInRange repo name s e).map (fun m => m.timestamp) ∧
    List.Sorted LiveOps.metricTsLe (LiveOps.sortedMetricsInRange repo name s e) ∧
    List.Perm (LiveOps.sortedMetricsInRange repo name s e)
        (repo.metrics.filter (LiveOps.metricInRange name s e)) ∧
    ((LiveOps.sortedMetricsInRange repo name s e) = [] →
      (repo.get_metric_history name s e).trend_analysis = ⟨0, 0, 0, 0⟩) ∧
    (∀ m0 mN, (LiveOps.sortedMetricsInRange repo name s e).head? = some m0 →
      (LiveOps.sortedMetricsInRange repo name s e).getLast? = some mN →
      (repo.get_metric_history name s e).trend_analysis.start_value = m0.value ∧
      (repo.get_metric_history name s e).trend_analysis.end_value = mN.value ∧
      (repo.get_metric_history name s e).trend_analysis.num_measurements
          = (LiveOps.sortedMetricsInRange repo name s e).length ∧
      (repo.get_metric_history name s e).trend_analysis.percent_change
          = (if m0.value ≠ 0 then (mN.value - m0.value) / m0.value * 100 else 0)) := by
  refine ⟨rfl, rfl, List.sorted_insertionSort _ _, List.perm_insertionSort _ _,
    fun hms => ?_, fun m0 mN hhead hlast => ?_⟩
  · simp [LiveOps.KnowledgeRepository.get_metric_history, hms]
  · cases hms : LiveOps.sortedMetricsInRange repo name s e with
    | nil => rw [hms] at hhead; simp at hhead
    | cons a tl =>
      rw [hms] at hhead hlast
      simp only [List.head?_cons, Option.some.injEq] at hhead
      subst hhead
      have hlastD : (tl.getLast?).getD a = mN := by
        rw [List.getLast?_cons] at hlast
        exact Option.some.injEq _ _ |>.mp hlast
      simp [LiveOps.KnowledgeRepository.get_metric_history, hms,
        List.getLast_eq_getLastD, hlastD]

/-- Witness for C4 (amended) at the concrete repository `repoC4`. -/
theorem LiveOps.C4_sorted_history_witness :
    (LiveOps.repoC4.get_metric_history "revenue" 0 10).trend_analysis.start_value = 0 ∧
    (LiveOps.repoC4.get_metric_history "revenue" 0 10).trend_analysis.end_value = 5 := by
  have h := (LiveOps.C4_sorted_history LiveOps.repoC4 "revenue" 0 10).2.2.2.2.2
    (LiveOps.mkMetricMeasurement "c1" "revenue" 1 0 1 "24h")
    (LiveOps.mkMetricMeasurement "c2" "revenue" 1 5 2 "24h")
    rfl rfl
  exact ⟨h.1, h.2.1⟩

/-- C8: the three key-lookup search methods return `[]` when the key is
absent from the corresponding index (they are total functions of the
embedding — no exception path exists), and for present keys they return the
`{change, metrics}` pair for every index hit, in index order. -/
theorem LiveOps.C8_lookup_misses (ib : LiveOps.IndexBuilder)
    (category tag metric impact : String) :
    (alookup ib.category_index category = none →
      ib.search_by_category category = []) ∧
    (∀ idxs, alookup ib.category_index category = some idxs →
      ib.search_by_category category = idxs.map (LiveOps.mkHit ib)) ∧
    (alookup ib.tag_index tag = none → ib.search_by_tag tag = []) ∧
    (∀ idxs, alookup ib.tag_index tag = some idxs →
      ib.search_by_tag tag = idxs.map (LiveOps.mkHit ib)) ∧
    (alookup ib.metric_impact_index impact = none →
      ib.search_by_metric_impact metric impact = []) ∧
    (∀ inner, alookup ib.metric_impact_index impact = some inner →
      alookup inner metric = none →
      ib.search_by_metric_impact metric impact = []) ∧
    (∀ inner idxs, alookup ib.metric_impact_index impact = some inner →
      alookup inner metric = some idxs →
      ib.search_by_metric_impact metric impact = idxs.map (LiveOps.mkHit ib)) := by
  refine ⟨fun h => ?_, fun idxs h => ?_, fun h => ?_, fun idxs h => ?_,
    fun h => ?_, fun inner h1 h2 => ?_, fun inner idxs h1 h2 => ?_⟩ <;>
    simp [LiveOps.IndexBuilder.search_by_category,
      LiveOps.IndexBuilder.search_by_tag,
      LiveOps.IndexBuilder.search_by_metric_impact, *,
      LiveOps.foldl_push_eq_map]

/-- Witness for C8 on the concrete builder `ibIdx`: a nonexistent category
gives `[]`, present keys give their hit lists. -/
theorem LiveOps.C8_lookup_misses_witness :
    LiveOps.ibIdx.search_by_category "NonexistentCategory" = [] ∧
    LiveOps.ibIdx.search_by_category "BOGO" = [LiveOps.mkHit LiveOps.ibIdx 0] ∧
    LiveOps.ibIdx.search_by_tag "sale" = [LiveOps.mkHit LiveOps.ibIdx 0] ∧
    LiveOps.ibIdx.search_by_metric_impact "revenue" "increase"
      = [LiveOps.mkHit LiveOps.ibIdx 0] := by
  obtain ⟨h1, -, -, h4, -, -, h7⟩ := LiveOps.C8_lookup_misses LiveOps.ibIdx
    "NonexistentCategory" "sale" "revenue" "increase"
  obtain ⟨-, h2, -, -, -, -, -⟩ := LiveOps.C8_lookup_misses LiveOps.ibIdx
    "BOGO" "" "" ""
  refine ⟨h1 (by decide), ?_, ?_, ?_⟩
  · simpa using h2 [0] (by decide)
  · simpa using h4 [0] (by decide)
  · simpa using h7
      [("revenue", [0]), ("dau", []), ("retention", []),
       ("session_length", []), ("conversion_rate", [])] [0]
      (by decide) (by decide)

theorem LiveOps.alookup_map_isSome {α : Type} (f : String → α)
    (keys : List String) (d : String) :
    (alookup (keys.map (fun k => (k, f k))) d).isSome = true ↔ d ∈ keys := by
  induction keys with
  | nil => simp [alookup]
  | cons k t ih =>
    by_cases h : k = d
    · subst h
      simp [alookup]
    · simp [alookup, h, ih, Ne.symm h]

theorem LiveOps.alookup_map_eq {α : Type} (f : String → α) (keys : List String)
    (d : String) (v : α) :
    alookup (keys.map (fun k => (k, f k))) d = some v → v = f d := by
  induction keys with
  | nil => simp [alookup]
  | cons k t ih =>
    by_cases h : k = d
    · subst h
      simp [alookup]
      exact fun hv => hv.symm
    · simp [alookup, h]
      exact ih

theorem LiveOps.emptyMII_wf : LiveOps.MIIwf LiveOps.emptyMetricImpactIndex := by
  constructor
  · intro d
    exact LiveOps.alookup_map_isSome _ _ d
  · intro d inner h m
    have hv := LiveOps.alookup_map_eq _ _ _ _ h
    subst hv
    exact LiveOps.alookup_map_isSome _ _ m

theorem LiveOps.alookup_aset_isSome {α : Type} (l : List (String × α))
    (k k' : String) (v : α) :
    (alookup (aset l k v) k').isSome = (alookup l k').isSome := by
  rw [LiveOps.alookup_aset]
  by_cases h : k' = k
  · subst h
    by_cases hs : (alookup l k').isSome <;> simp [hs]
  · simp [h]

theorem LiveOps.MIIwf_addImpact (idx : LiveOps.MetricImpactIndex)
    (impact metric : String) (i : Nat) (idx' : LiveOps.MetricImpactIndex)
    (hwf : LiveOps.MIIwf idx)
    (h : LiveOps.addImpact idx impact metric i = some idx') :
    LiveOps.MIIwf idx' := by
  unfold LiveOps.addImpact at h
  cases h1 : alookup idx impact with
  | none => rw [h1] at h; exact absurd h (by simp)
  | some inner =>
    rw [h1] at h
    cases h2 : alookup inner metric with
    | none => simp [h2] at h
    | some lst =>
      simp only [h2, Option.some.injEq] at h
      subst h
      constructor
      · intro d
        rw [LiveOps.alookup_aset_isSome]
        exact hwf.1 d
      · intro d inner' h' m
        rw [LiveOps.alookup_aset] at h'
        by_cases hd : d = impact
        · subst hd
          rw [if_pos rfl, h1] at h'
          simp only [Option.isSome_some, if_true, Option.some.injEq] at h'
          subst h'
          rw [LiveOps.alookup_aset_isSome]
          exact hwf.2 d inner h1 m
        · rw [if_neg hd] at h'
          exact hwf.2 d inner' h' m

theorem LiveOps.addImpact_isSome (idx : LiveOps.MetricImpactIndex)
    (impact metric : String) (i : Nat) (hwf : LiveOps.MIIwf idx) :
    (LiveOps.addImpact idx impact metric i).isSome = true ↔
      (impact ∈ LiveOps.impactDirections ∧ metric ∈ LiveOps.impactMetrics) := by
  unfold LiveOps.addImpact
  cases h1 : alookup idx impact with
  | none =>
    have := hwf.1 impact
    rw [h1] at this
    simp only [Option.isSome_none] at this
    simp [← this]
  | some inner =>
    have hdir : impact ∈ LiveOps.impactDirections := by
      have := hwf.1 impact
      rw [h1] at this
      exact this.mp rfl
    cases h2 : alookup inner metric with
    | none =>
      have := hwf.2 impact inner h1 metric
      rw [h2] at this
      simp only [Option.isSome_none] at this
      simp [← this, h2]
    | some lst =>
      have hmet : metric ∈ LiveOps.impactMetrics := by
        have := hwf.2 impact inner h1 metric
        rw [h2] at this
        exact this.mp rfl
      simp [hdir, hmet, h2]

theorem LiveOps.addImpactsOfChange_spec (pairs : List (String × String)) :
    ∀ (idx : LiveOps.MetricImpactIndex) (i : Nat), LiveOps.MIIwf idx →
      (∀ idx', LiveOps.addImpactsOfChange idx i pairs = some idx' →
        LiveOps.MIIwf idx') ∧
      ((LiveOps.addImpactsOfChange idx i pairs).isSome = true ↔
        ∀ p ∈ pairs, LiveOps.goodImpactPair p) := by
  induction pairs with
  | nil =>
    intro idx i hwf
    constructor
    · intro idx' h
      simp only [LiveOps.addImpactsOfChange, Option.some.injEq] at h
      subst h
      exact hwf
    · simp [LiveOps.addImpactsOfChange]
  | cons p rest ih =>
    intro idx i hwf
    obtain ⟨metric, impact⟩ := p
    cases h : LiveOps.addImpact idx impact metric i with
    | none =>
      have hbad : ¬ (impact ∈ LiveOps.impactDirections ∧
          metric ∈ LiveOps.impactMetrics) := by
        have hi := LiveOps.addImpact_isSome idx impact metric i hwf
        rw [h] at hi
        simpa using hi.symm.mp
      constructor
      · intro idx' h'
        simp [LiveOps.addImpactsOfChange, h] at h'
      · simp only [LiveOps.addImpactsOfChange, h]
        simp only [Option.isSome_none, Bool.false_eq_true, false_iff]
        intro hall
        exact hbad (hall (metric, impact) (List.mem_cons_self _ _))
    | some idx2 =>
      have hwf2 := LiveOps.MIIwf_addImpact idx impact metric i idx2 hwf h
      have hgood : LiveOps.goodImpactPair (metric, impact) := by
        have hi := LiveOps.addImpact_isSome idx impact metric i hwf
        rw [h] at hi
        exact hi.mp rfl
      obtain ⟨ihwf, ihsome⟩ := ih idx2 i hwf2
      constructor
      · intro idx' h'
        simp only [LiveOps.addImpactsOfChange, h] at h'
        exact ihwf idx' h'
      · simp only [LiveOps.addImpactsOfChange, h]
        rw [ihsome]
        constructor
        · intro hrest q hq
          rcases List.mem_cons.mp hq with h' | h'
          · subst h'
            exact hgood
          · exact hrest q h'
        · intro hall q hq
          exact hall q (List.mem_cons_of_mem _ hq)

theorem LiveOps.buildMIIAux_isSome (cs : List LiveOps.LiveOpsChange) :
    ∀ (idx : LiveOps.MetricImpactIndex) (i : Nat), LiveOps.MIIwf idx →
      ((LiveOps.buildMetricImpactIndexAux idx i cs).isSome = true ↔
        ∀ c ∈ cs, ∀ p ∈ c.expected_impact, LiveOps.goodImpactPair p) := by
  induction cs with
  | nil =>
    intro idx i hwf
    simp [LiveOps.buildMetricImpactIndexAux]
  | cons c rest ih =>
    intro idx i hwf
    obtain ⟨hpres, hsome⟩ :=
      LiveOps.addImpactsOfChange_spec c.expected_impact idx i hwf
    cases h : LiveOps.addImpactsOfChange idx i c.expected_impact with
    | none =>
      have hbad : ¬ ∀ p ∈ c.expected_impact, LiveOps.goodImpactPair p := by
        rw [h] at hsome
        simpa using hsome.symm.mp
      simp only [LiveOps.buildMetricImpactIndexAux, h, Option.isSome_none,
        Bool.false_eq_true, false_iff]
      intro hall
      exact hbad (hall c (List.mem_cons_self _ _))
    | some idx2 =>
      have hwf2 := hpres idx2 h
      have hgoodc : ∀ p ∈ c.expected_impact, LiveOps.goodImpactPair p := by
        rw [h] at hsome
        exact hsome.mp rfl
      simp only [LiveOps.buildMetricImpactIndexAux, h]
      rw [ih idx2 (i + 1) hwf2]
      constructor
      · intro hrest c' hc'
        rcases List.mem_cons.mp hc' with h' | h'
        · subst h'
          exact hgoodc
        · exact hrest c' h'
      · intro hall c' hc'
        exact hall c' (List.mem_cons_of_mem _ hc')

/-- C9: constructing the index builder (which runs `build_all_indexes`,
including `build_metric_impact_index`) succeeds exactly when every change's
`expected_impact` uses a direction in {increase, decrease, neutral} and a
metric name in {revenue, dau, retention, session_length, conversion_rate};
a repository containing any out-of-enumeration pair makes construction
raise `KeyError`. -/
theorem LiveOps.C9_metric_impact_precondition (repo : LiveOps.KnowledgeRepository) :
    ((∃ ib, LiveOps.IndexBuilder.build repo = .ok ib) ↔
      ∀ c ∈ repo.changes, ∀ p ∈ c.expected_impact, LiveOps.goodImpactPair p) ∧
    ((¬ ∀ c ∈ repo.changes, ∀ p ∈ c.expected_impact, LiveOps.goodImpactPair p) →
      LiveOps.IndexBuilder.build repo = .error "KeyError") := by
  have hiff : (LiveOps.buildMetricImpactIndex repo).isSome = true ↔
      ∀ c ∈ repo.changes, ∀ p ∈ c.expected_impact, LiveOps.goodImpactPair p :=
    LiveOps.buildMIIAux_isSome repo.changes LiveOps.emptyMetricImpactIndex 0
      LiveOps.emptyMII_wf
  constructor
  · constructor
    · rintro ⟨ib, hib⟩
      cases h : LiveOps.buildMetricImpactIndex repo with
      | none => simp [LiveOps.IndexBuilder.build, h] at hib
      | some mii =>
        rw [← hiff, h]
        rfl
    · intro hall
      have := hiff.mpr hall
      cases h : LiveOps.buildMetricImpactIndex repo with
      | none =>
        rw [h] at this
        simp at this
      | some mii =>
        refine ⟨{ knowledge_repo := repo,
                  category_index := LiveOps.buildCategoryIndex repo,
                  metric_impact_index := mii,
                  temporal_index := LiveOps.buildTemporalIndex repo,
                  tag_index := LiveOps.buildTagIndex repo }, ?_⟩
        simp [LiveOps.IndexBuilder.build, h]
  · intro hbad
    cases h : LiveOps.buildMetricImpactIndex repo with
    | none => simp [LiveOps.IndexBuilder.build, h]
    | some mii =>
      exact absurd (hiff.mp (by rw [h]; rfl)) hbad

/-- Witness for C9: the bad-direction repository fails with `KeyError`,
and the well-formed repository `repoIdx` builds successfully. -/
theorem LiveOps.C9_metric_impact_precondition_witness :
    LiveOps.IndexBuilder.build LiveOps.repoC9bad = .error "KeyError" ∧
    (∃ ib, LiveOps.IndexBuilder.build LiveOps.repoIdx = .ok ib) := by
  constructor
  · exact (LiveOps.C9_metric_impact_precondition LiveOps.repoC9bad).2 (by decide)
  · exact (LiveOps.C9_metric_impact_precondition LiveOps.repoIdx).1.mpr (by decide)

theorem LiveOps.dateRangeWalk_eq_filter (ib : LiveOps.IndexBuilder)
    (s e : Int) (idxs : List Nat)
    (hsorted : List.Pairwise (LiveOps.idxTsLe ib.knowledge_repo.changes) idxs) :
    LiveOps.dateRangeWalk ib s e idxs =
      (idxs.filter (fun i =>
        decide (s ≤ (ib.knowledge_repo.changes.getD i default).timestamp ∧
          (ib.knowledge_repo.changes.getD i default).timestamp ≤ e))).map
        (LiveOps.mkHit ib) := by
  induction idxs with
  | nil => simp [LiveOps.dateRangeWalk]
  | cons i rest ih =>
    obtain ⟨hhead, htail⟩ := List.pairwise_cons.mp hsorted
    by_cases hin : s ≤ (ib.knowledge_repo.changes.getD i default).timestamp ∧
        (ib.knowledge_repo.changes.getD i default).timestamp ≤ e
    · show (if s ≤ (ib.knowledge_repo.changes.getD i default).timestamp ∧
            (ib.knowledge_repo.changes.getD i default).timestamp ≤ e then
          LiveOps.mkHit ib i :: LiveOps.dateRangeWalk ib s e rest
        else if e < (ib.knowledge_repo.changes.getD i default).timestamp then []
        else LiveOps.dateRangeWalk ib s e rest) = _
      rw [if_pos hin, ih htail, List.filter_cons, if_pos (by simpa using hin),
        List.map_cons]
    · by_cases hgt : e < (ib.knowledge_repo.changes.getD i default).timestamp
      · have hnil : (i :: rest).filter (fun i =>
            decide (s ≤ (ib.knowledge_repo.changes.getD i default).timestamp ∧
              (ib.knowledge_repo.changes.getD i default).timestamp ≤ e)) = [] := by
          rw [List.filter_eq_nil_iff]
          intro j hj
          rcases List.mem_cons.mp hj with h' | h'
          · subst h'
            simp only [decide_eq_true_eq]
            exact hin
          · have hle := hhead j h'
            simp only [decide_eq_true_eq, not_and]
            intro _ hc
            exact absurd (le_trans hle hc) (not_le.mpr hgt)
        rw [hnil]
        show (if s ≤ (ib.knowledge_repo.changes.getD i default).timestamp ∧
            (ib.knowledge_repo.changes.getD i default).timestamp ≤ e then
          LiveOps.mkHit ib i :: LiveOps.dateRangeWalk ib s e rest
        else if e < (ib.knowledge_repo.changes.getD i default).timestamp then []
        else LiveOps.dateRangeWalk ib s e rest) = _
        rw [if_neg hin, if_pos hgt, List.map_nil]
      · show (if s ≤ (ib.knowledge_repo.changes.getD i default).timestamp ∧
            (ib.knowledge_repo.changes.getD i default).timestamp ≤ e then
          LiveOps.mkHit ib i :: LiveOps.dateRangeWalk ib s e rest
        else if e < (ib.knowledge_repo.changes.getD i default).timestamp then []
        else LiveOps.dateRangeWalk ib s e rest) = _
        rw [if_neg hin, if_neg hgt, ih htail, List.filter_cons,
          if_neg (by simpa using hin)]

/-- C3: for every repository whose index builder was successfully built and
every `start <= end`, `search_by_date_range` equals the filter of the full
time-sorted index (the early `break` changes nothing), and the returned
changes are exactly — up to the temporal reordering, i.e. as a permutation —
the repository changes with `start <= timestamp <= end`, both boundaries
included. -/
theorem LiveOps.C3_date_range (repo : LiveOps.KnowledgeRepository)
    (ib : LiveOps.IndexBuilder) (hb : LiveOps.IndexBuilder.build repo = .ok ib)
    (s e : Int) (hse : s ≤ e) :
    ib.search_by_date_range s e =
      (ib.temporal_index.filter (fun i =>
        decide (s ≤ (repo.changes.getD i default).timestamp ∧
          (repo.changes.getD i default).timestamp ≤ e))).map (LiveOps.mkHit ib) ∧
    List.Perm ((ib.search_by_date_range s e).map
        (fun h : LiveOps.SearchHit => h.change))
      (repo.changes.filter (fun c => decide (s ≤ c.timestamp ∧ c.timestamp ≤ e))) := by
  have hfields : ib.knowledge_repo = repo ∧
      ib.temporal_index = LiveOps.buildTemporalIndex repo := by
    unfold LiveOps.IndexBuilder.build at hb
    cases h : LiveOps.buildMetricImpactIndex repo with
    | none => rw [h] at hb; exact absurd hb (by simp)
    | some mii =>
      rw [h] at hb
      simp only [Except.ok.injEq] at hb
      subst hb
      exact ⟨rfl, rfl⟩
  obtain ⟨hkr, hti⟩ := hfields
  have hsorted : List.Pairwise (LiveOps.idxTsLe ib.knowledge_repo.changes)
      ib.temporal_index := by
    rw [hti, hkr]
    exact List.sorted_insertionSort _ _
  have hwalk := LiveOps.dateRangeWalk_eq_filter ib s e ib.temporal_index hsorted
  rw [hkr] at hwalk
  constructor
  · rw [LiveOps.IndexBuilder.search_by_date_range, hwalk]
  · rw [LiveOps.IndexBuilder.search_by_date_range, hwalk, List.map_map]
    have hcomp : ((fun h : LiveOps.SearchHit => h.change) ∘ LiveOps.mkHit ib)
        = fun i => ib.knowledge_repo.changes.getD i default := rfl
    rw [hcomp, hkr]
    have hperm : List.Perm ib.temporal_index (List.range repo.changes.length) := by
      rw [hti]
      exact List.perm_insertionSort _ _
    have h1 := (hperm.filter (fun i =>
      decide (s ≤ (repo.changes.getD i default).timestamp ∧
        (repo.changes.getD i default).timestamp ≤ e))).map
      (fun i => repo.changes.getD i default)
    refine h1.trans ?_
    have h3 : repo.changes.filter
        (fun c => decide (s ≤ c.timestamp ∧ c.timestamp ≤ e)) =
        ((List.range repo.changes.length).filter (fun i =>
          decide (s ≤ (repo.changes.getD i default).timestamp ∧
            (repo.changes.getD i default).timestamp ≤ e))).map
          (fun i => repo.changes.getD i default) := by
      conv_lhs => rw [← LiveOps.map_getD_range repo.changes]
      rw [List.filter_map]
      rfl
    rw [← h3]

/-- Witness for C3 on the concrete builder `ibIdx` (one change at
timestamp 1, range `[0, 10]`). -/
theorem LiveOps.C3_date_range_witness :
    LiveOps.ibIdx.search_by_date_range 0 10 = [LiveOps.mkHit LiveOps.ibIdx 0] ∧
    List.Perm ((LiveOps.ibIdx.search_by_date_range 0 10).map
        (fun h : LiveOps.SearchHit => h.change))
      (LiveOps.repoIdx.changes.filter
        (fun c => decide ((0 : Int) ≤ c.timestamp ∧ c.timestamp ≤ 10))) := by
  have h := LiveOps.C3_date_range LiveOps.repoIdx LiveOps.ibIdx rfl 0 10
    (by norm_num)
  refine ⟨?_, h.2⟩
  rw [h.1]
  rfl

/-- C5: intent rules are checked in order with the first match winning; any
query whose lowercased text contains `"compare"`, `"vs"` or `"versus"` (or
whose entities contain `comparison_targets`) is classified
`comparative_analysis` with confidence 0.9 — for every entity dict, in
particular one with a `metric` entity and a trend cue in the query. -/
theorem LiveOps.C5_priority_comparative (query : String)
    (entities : LiveOps.Entities) (semanticMatch : Option (String × ℚ))
    (h : LiveOps.keyMem entities "comparison_targets" = true ∨
      LiveOps.strHasSub "compare".data (LiveOps.pyLower query) = true ∨
      LiveOps.strHasSub "vs".data (LiveOps.pyLower query) = true ∨
      LiveOps.strHasSub "versus".data (LiveOps.pyLower query) = true) :
    LiveOps.matchIntentRules query entities
      = some ("comparative_analysis", 9 / 10) ∧
    LiveOps.determineIntent query entities semanticMatch
      = ("comparative_analysis", 9 / 10) := by
  have hcond : (LiveOps.keyMem entities "comparison_targets"
      || ["compare", "vs", "versus"].any
          (fun x => LiveOps.strHasSub x.data (LiveOps.pyLower query))) = true := by
    rcases h with h | h | h | h <;>
      simp [List.any_cons, List.any_nil, h]
  have h1 : LiveOps.matchIntentRules query entities
      = some ("comparative_analysis", 9 / 10) := by
    simp only [LiveOps.matchIntentRules, hcond]
    rfl
  exact ⟨h1, by simp [LiveOps.determineIntent, h1]⟩

/-- Witness for C5: a query containing `"compare"`, `"vs"` and the trend cue
`"trend"` together with a `metric` entity still resolves to
`comparative_analysis` with confidence 0.9. -/
theorem LiveOps.C5_priority_comparative_witness :
    LiveOps.matchIntentRules "Compare revenue trend of BOGO vs sale"
        [("metric", ["revenue"]), ("category", ["BOGO"])]
      = some ("comparative_analysis", 9 / 10) ∧
    LiveOps.determineIntent "Compare revenue trend of BOGO vs sale"
        [("metric", ["revenue"]), ("category", ["BOGO"])] none
      = ("comparative_analysis", 9 / 10) :=
  LiveOps.C5_priority_comparative "Compare revenue trend of BOGO vs sale"
    [("metric", ["revenue"]), ("category", ["BOGO"])] none
    (Or.inr (Or.inl (by decide)))

/-- C10: for every change id matching no stored change,
`analyze_change_impact` returns the `{"error": "Change not found"}` dict
(no exception — the embedding is total) and passes the repository state
through unchanged. -/
theorem LiveOps.C10_change_not_found (repo : LiveOps.KnowledgeRepository)
    (ib : LiveOps.IndexBuilder) (change_id : String)
    (h : ∀ c ∈ repo.changes, c.change_id ≠ change_id) :
    LiveOps.ChangeAnalyzer.analyze_change_impact repo ib change_id
      = (LiveOps.AnalysisResult.error "Change not found", repo) := by
  have hf : repo.changes.find? (fun c => c.change_id == change_id) = none := by
    rw [List.find?_eq_none]
    intro c hc
    simp [h c hc]
  simp [LiveOps.ChangeAnalyzer.analyze_change_impact, hf]

/-- Witness for C10: the id `"missing"` is absent from `repoIdx`. -/
theorem LiveOps.C10_change_not_found_witness :
    LiveOps.ChangeAnalyzer.analyze_change_impact LiveOps.repoIdx
        LiveOps.ibIdx "missing"
      = (LiveOps.AnalysisResult.error "Change not found", LiveOps.repoIdx) :=
  LiveOps.C10_change_not_found LiveOps.repoIdx LiveOps.ibIdx "missing"
    (by decide)

theorem LiveOps.combineLoop_mem (st : LiveOps.HybridState)
    (ss : List (String × ℚ)) (th : Option ℚ)
    (mf : Option (List (String × String))) :
    ∀ (l : List (LiveOps.Document × ℚ)) (r : LiveOps.SearchResult),
      r ∈ LiveOps.combineLoop st ss th mf l →
      (1 / 100 < r.semantic_score ∨ 1 / 100 < r.keyword_score) ∧
      r.combined_score = st.semantic_weight * r.semantic_score
        + st.keyword_weight * r.keyword_score ∧
      ∃ p ∈ l, p.1 = r.document ∧
        r.semantic_score = (alookup ss p.1.id).getD 0 ∧
        r.keyword_score = LiveOps.softNormalize p.2 := by
  intro l
  induction l with
  | nil =>
    intro r hr
    simp [LiveOps.combineLoop] at hr
  | cons p rest ih =>
    intro r hr
    obtain ⟨doc, kwRaw⟩ := p
    have lift : r ∈ LiveOps.combineLoop st ss th mf rest →
        (1 / 100 < r.semantic_score ∨ 1 / 100 < r.keyword_score) ∧
        r.combined_score = st.semantic_weight * r.semantic_score
          + st.keyword_weight * r.keyword_score ∧
        ∃ p ∈ (doc, kwRaw) :: rest, p.1 = r.document ∧
          r.semantic_score = (alookup ss p.1.id).getD 0 ∧
          r.keyword_score = LiveOps.softNormalize p.2 := by
      intro hre
      obtain ⟨ha, hb, q, hq, hrest⟩ := ih r hre
      exact ⟨ha, hb, q, List.mem_cons_of_mem _ hq, hrest⟩
    simp only [LiveOps.combineLoop] at hr
    split_ifs at hr with h1 h2 h3
    · exact lift hr
    · exact lift hr
    · rcases List.mem_cons.mp hr with h' | h'
      · subst h'
        exact ⟨h1, rfl, (doc, kwRaw), List.mem_cons_self _ _, rfl, rfl, rfl⟩
      · exact lift h'
    · exact lift hr

theorem LiveOps.search_mem_combineLoop (st : LiveOps.HybridState)
    (documents : List LiveOps.Document)
    (semantic_results : List (LiveOps.Document × ℚ)) (keyword_scores : List ℚ)
    (k : Nat) (th : Option ℚ) (mf : Option (List (String × String)))
    (r : LiveOps.SearchResult)
    (hr : r ∈ LiveOps.HybridSearcher.search st documents semantic_results
      keyword_scores k th mf) :
    r ∈ LiveOps.combineLoop st (LiveOps.buildSemanticScores semantic_results)
      th mf (documents.zip keyword_scores) := by
  have h1 := List.take_subset k _ hr
  exact (List.perm_insertionSort LiveOps.combinedGe _).mem_iff.mp h1

/-- C6: in every hybrid `search` call, a result appears only when its
semantic score or its soft-normalized keyword score exceeds the 0.01
inclusion floor; a stored document all of whose occurrences have both
scores at most 0.01 is absent from the results (document identity is id
equality, as in Python `Document.__eq__`). -/
theorem LiveOps.C6_inclusion_floor (st : LiveOps.HybridState)
    (documents : List LiveOps.Document)
    (semantic_results : List (LiveOps.Document × ℚ)) (keyword_scores : List ℚ)
    (k : Nat) (th : Option ℚ) (mf : Option (List (String × String)))
    (d : LiveOps.Document)
    (h : ∀ p ∈ documents.zip keyword_scores, p.1.id = d.id →
      (alookup (LiveOps.buildSemanticScores semantic_results) p.1.id).getD 0
          ≤ 1 / 100 ∧
      LiveOps.softNormalize p.2 ≤ 1 / 100) :
    (∀ r ∈ LiveOps.HybridSearcher.search st documents semantic_results
        keyword_scores k th mf,
      1 / 100 < r.semantic_score ∨ 1 / 100 < r.keyword_score) ∧
    (∀ r ∈ LiveOps.HybridSearcher.search st documents semantic_results
        keyword_scores k th mf,
      r.document.id ≠ d.id) := by
  constructor
  · intro r hr
    exact (LiveOps.combineLoop_mem st _ th mf _ r
      (LiveOps.search_mem_combineLoop st documents semantic_results
        keyword_scores k th mf r hr)).1
  · intro r hr hid
    obtain ⟨hfloor, -, q, hq, hqd, hsem, hkw⟩ :=
      LiveOps.combineLoop_mem st _ th mf _ r
        (LiveOps.search_mem_combineLoop st documents semantic_results
          keyword_scores k th mf r hr)
    have hqid : q.1.id = d.id := by rw [hqd, hid]
    obtain ⟨hs, hk⟩ := h q hq hqid
    rw [← hsem] at hs
    rw [← hkw] at hk
    rcases hfloor with hf | hf
    · exact absurd hf (not_lt.mpr hs)
    · exact absurd hf (not_lt.mpr hk)

/-- Witness for C6: with default weights, `docA` (semantic score 0.5) is
returned while `docB` (both scores 0) never appears. -/
theorem LiveOps.C6_inclusion_floor_witness :
    ((LiveOps.HybridSearcher.search LiveOps.stHybrid
        [LiveOps.docA, LiveOps.docB] [(LiveOps.docA, 1 / 2)] [0, 0] 5
        none none).all
      (fun r => !(r.document.id == "d2"))) = true := by
  rw [List.all_eq_true]
  intro r hr
  have h := (LiveOps.C6_inclusion_floor LiveOps.stHybrid
    [LiveOps.docA, LiveOps.docB] [(LiveOps.docA, 1 / 2)] [0, 0] 5
    none none LiveOps.docB ?_).2 r hr
  · simpa [LiveOps.docB] using h
  · intro p hp hid
    simp only [List.zip_cons_cons, List.zip_nil_right, List.mem_cons,
      List.not_mem_nil, or_false] at hp
    rcases hp with hp | hp
    · rw [hp] at hid
      exact absurd hid (by decide)
    · rw [hp]
      constructor
      · simp [LiveOps.buildSemanticScores, LiveOps.dictSet, LiveOps.alookup,
          LiveOps.aset, LiveOps.docA, LiveOps.docB]
      · simp [LiveOps.softNormalize]

/-- C7: `adjust_weights(a, b)` (and construction with weights `a, b`)
raises exactly when `a` or `b` lies outside `[0, 1]` or
`|a + b - 1| > 1e-6`; on failure the previous weights are unchanged, on
success the new weights are stored, and every result of a subsequent
`search` combines its component scores with the new weights. -/
theorem LiveOps.C7_weight_validation (st : LiveOps.HybridState) (a b : ℚ) :
    ((LiveOps.HybridSearcher.adjust_weights st a b).1.isSome = true ↔
      (¬ (0 ≤ a ∧ a ≤ 1) ∨ ¬ (0 ≤ b ∧ b ≤ 1) ∨ 1 / 1000000 < |a + b - 1|)) ∧
    ((LiveOps.HybridSearcher.adjust_weights st a b).1.isSome = true →
      (LiveOps.HybridSearcher.adjust_weights st a b).2 = st) ∧
    ((LiveOps.HybridSearcher.adjust_weights st a b).1 = none →
      (LiveOps.HybridSearcher.adjust_weights st a b).2
        = { semantic_weight := a, keyword_weight := b }) ∧
    ((∃ st', LiveOps.HybridSearcher.mkState a b = .ok st') ↔
      ¬ (¬ (0 ≤ a ∧ a ≤ 1) ∨ ¬ (0 ≤ b ∧ b ≤ 1) ∨ 1 / 1000000 < |a + b - 1|)) ∧
    ((LiveOps.HybridSearcher.adjust_weights st a b).1 = none →
      ∀ documents semantic_results keyword_scores k th mf,
        ((LiveOps.HybridSearcher.search
            (LiveOps.HybridSearcher.adjust_weights st a b).2 documents
            semantic_results keyword_scores k th mf).all
          (fun r => r.combined_score
            == a * r.semantic_score + b * r.keyword_score)) = true) := by
  by_cases h1 : ¬ (0 ≤ a ∧ a ≤ 1) ∨ ¬ (0 ≤ b ∧ b ≤ 1)
  · have ha : LiveOps.HybridSearcher.adjust_weights st a b
        = (some "Weights must be between 0 and 1", st) := by
      unfold LiveOps.HybridSearcher.adjust_weights
      rw [if_pos h1]
    have hm : LiveOps.HybridSearcher.mkState a b
        = .error "Weights must be between 0 and 1" := by
      unfold LiveOps.HybridSearcher.mkState
      rw [if_pos h1]
    have hd : ¬ (0 ≤ a ∧ a ≤ 1) ∨ ¬ (0 ≤ b ∧ b ≤ 1)
        ∨ 1 / 1000000 < |a + b - 1| :=
      h1.elim Or.inl (fun h => Or.inr (Or.inl h))
    refine ⟨?_, ?_, ?_, ?_, ?_⟩
    · rw [ha]
      simp only [Option.isSome_some, true_iff]
      exact hd
    · intro _
      rw [ha]
    · intro hn
      rw [ha] at hn
      exact absurd hn (by simp)
    · constructor
      · rintro ⟨st', h'⟩
        rw [hm] at h'
        exact absurd h' (by simp)
      · intro hcon
        exact absurd hd hcon
    · intro hn
      rw [ha] at hn
      exact absurd hn (by simp)
  · by_cases h2 : 1 / 1000000 < |a + b - 1|
    · have ha : LiveOps.HybridSearcher.adjust_weights st a b
          = (some "Weights must sum to 1", st) := by
        unfold LiveOps.HybridSearcher.adjust_weights
        rw [if_neg h1, if_pos h2]
      have hm : LiveOps.HybridSearcher.mkState a b
          = .error "Weights must sum to 1" := by
        unfold LiveOps.HybridSearcher.mkState
        rw [if_neg h1, if_pos h2]
      refine ⟨?_, ?_, ?_, ?_, ?_⟩
      · rw [ha]
        simp only [Option.isSome_some, true_iff]
        exact Or.inr (Or.inr h2)
      · intro _
        rw [ha]
      · intro hn
        rw [ha] at hn
        exact absurd hn (by simp)
      · constructor
        · rintro ⟨st', h'⟩
          rw [hm] at h'
          exact absurd h' (by simp)
        · intro hcon
          exact absurd (Or.inr (Or.inr h2)) hcon
      · intro hn
        rw [ha] at hn
        exact absurd hn (by simp)
    · have ha : LiveOps.HybridSearcher.adjust_weights st a b
          = (none, { semantic_weight := a, keyword_weight := b }) := by
        unfold LiveOps.HybridSearcher.adjust_weights
        rw [if_neg h1, if_neg h2]
      have hm : LiveOps.HybridSearcher.mkState a b
          = .ok { semantic_weight := a, keyword_weight := b } := by
        unfold LiveOps.HybridSearcher.mkState
        rw [if_neg h1, if_neg h2]
      have hnd : ¬ (¬ (0 ≤ a ∧ a ≤ 1) ∨ ¬ (0 ≤ b ∧ b ≤ 1)
          ∨ 1 / 1000000 < |a + b - 1|) := by
        rintro (h | h | h)
        · exact h1 (Or.inl h)
        · exact h1 (Or.inr h)
        · exact h2 h
      refine ⟨?_, ?_, ?_, ?_, ?_⟩
      · rw [ha]
        simp only [Option.isSome_none, Bool.false_eq_true, false_iff]
        exact hnd
      · intro habs
        rw [ha] at habs
        exact absurd habs (by simp)
      · intro _
        rw [ha]
      · constructor
        · intro _
          exact hnd
        · intro _
          exact ⟨_, hm⟩
      · intro _ documents semantic_results keyword_scores k th mf
        rw [List.all_eq_true]
        intro r hr
        have hcomb := (LiveOps.combineLoop_mem
          (LiveOps.HybridSearcher.adjust_weights st a b).2 _ th mf _ r
          (LiveOps.search_mem_combineLoop _ documents semantic_results
            keyword_scores k th mf r hr)).2.1
        rw [ha] at hcomb
        simpa using hcomb

/-- Witness for C7: `adjust_weights(0.3, 0.7)` succeeds and stores the new
weights, which the next `search` uses; `adjust_weights(2, -1)` raises and
leaves the weights unchanged. -/
theorem LiveOps.C7_weight_validation_witness :
    (LiveOps.HybridSearcher.adjust_weights LiveOps.stHybrid (3 / 10) (7 / 10)).1
      = none ∧
    (LiveOps.HybridSearcher.adjust_weights LiveOps.stHybrid (3 / 10) (7 / 10)).2
      = { semantic_weight := 3 / 10, keyword_weight := 7 / 10 } ∧
    (LiveOps.HybridSearcher.adjust_weights LiveOps.stHybrid 2 (-1)).1.isSome
      = true ∧
    (LiveOps.HybridSearcher.adjust_weights LiveOps.stHybrid 2 (-1)).2
      = LiveOps.stHybrid ∧
    ((LiveOps.HybridSearcher.search
        (LiveOps.HybridSearcher.adjust_weights LiveOps.stHybrid
          (3 / 10) (7 / 10)).2
        [LiveOps.docA] [(LiveOps.docA, 1 / 2)] [1 / 2] 5 none none).all
      (fun r => r.combined_score
        == (3 / 10) * r.semantic_score + (7 / 10) * r.keyword_score)) = true := by
  obtain ⟨hiff, -, hstore, -, hsearch⟩ :=
    LiveOps.C7_weight_validation LiveOps.stHybrid (3 / 10) (7 / 10)
  obtain ⟨hiffE, hunchE, -, -, -⟩ :=
    LiveOps.C7_weight_validation LiveOps.stHybrid 2 (-1)
  have hnb : ¬ (¬ (0 ≤ (3 : ℚ) / 10 ∧ (3 : ℚ) / 10 ≤ 1)
      ∨ ¬ (0 ≤ (7 : ℚ) / 10 ∧ (7 : ℚ) / 10 ≤ 1)
      ∨ 1 / 1000000 < |(3 : ℚ) / 10 + 7 / 10 - 1|) := by
    rw [show ((3 : ℚ) / 10 + 7 / 10 - 1) = 0 by norm_num]
    simp only [abs_zero]
    norm_num
  have hnone : (LiveOps.HybridSearcher.adjust_weights LiveOps.stHybrid
      (3 / 10) (7 / 10)).1 = none := by
    cases hx : (LiveOps.HybridSearcher.adjust_weights LiveOps.stHybrid
        (3 / 10) (7 / 10)).1 with
    | none => rfl
    | some m => exact absurd (hiff.mp (by rw [hx]; rfl)) hnb
  have hsome : (LiveOps.HybridSearcher.adjust_weights LiveOps.stHybrid
      2 (-1)).1.isSome = true :=
    hiffE.mpr (Or.inl (by norm_num))
  exact ⟨hnone, hstore hnone, hsome, hunchE hsome,
    hsearch hnone [LiveOps.docA] [(LiveOps.docA, 1 / 2)] [1 / 2] 5 none none⟩

/-- C2 counterexample: with `max_tokens = 10`, `reserved_tokens = 0`, a
required rule costing 15 tokens followed by a non-required rule whose list
costs 30 tokens, the loop trims the non-required entry to the miscomputed
budget `10 - (15 - 30) = 25` and includes 25 tokens for it — more than
`T - R = 10`. The claim's bound on non-required entries is false. -/
theorem LiveOps.C2_counterexample :
    (LiveOps.rulesC2.map (fun r => r.required)) = [true, false] ∧
    LiveOps.alookup
        (LiveOps.select_context LiveOps.tokenEstimate 10 0 LiveOps.rulesC2).1 "b"
      = some (LiveOps.CtxData.list (List.replicate 5 (.atom LiveOps.s20))) ∧
    LiveOps.estimateTokens LiveOps.tokenEstimate
        (LiveOps.CtxData.list (List.replicate 5 (.atom LiveOps.s20))) = 25 ∧
    ¬ ((25 : Int) ≤ 10 - 0) := by
  exact ⟨rfl, rfl, rfl, by decide⟩

theorem LiveOps.alookup_dictSet_self {α : Type} (l : List (String × α))
    (k : String) (v : α) : alookup (dictSet l k v) k = some v := by
  unfold dictSet
  by_cases hs : (alookup l k).isSome
  · rw [if_pos hs, alookup_aset]
    simp [hs]
  · rw [if_neg hs, alookup_append]
    cases hl : alookup l k with
    | some w => rw [hl] at hs; simp at hs
    | none => simp [alookup]

theorem LiveOps.selectLoop_preserves (tc : String → Nat) (avail : Int) :
    ∀ (rules : List LiveOps.CRule) (ctx : List (String × LiveOps.CtxData))
      (used : Int) (ty : String) (d : LiveOps.CtxData),
      LiveOps.alookup ctx ty = some d →
      ty ∉ rules.map (fun r => r.type) →
      LiveOps.alookup (LiveOps.selectLoop tc avail rules ctx used).1 ty
        = some d := by
  intro rules
  induction rules with
  | nil =>
    intro ctx used ty d h _
    simpa [LiveOps.selectLoop] using h
  | cons r rest ih =>
    intro ctx used ty d h hnin
    rw [List.map_cons, List.mem_cons] at hnin
    push_neg at hnin
    obtain ⟨hne, hnin'⟩ := hnin
    cases hcd : r.context_data with
    | none =>
      simp only [LiveOps.selectLoop, hcd]
      exact ih ctx used ty d h hnin'
    | some cd =>
      simp only [LiveOps.selectLoop, hcd]
      split_ifs with h1 h2 h3
      · refine ih _ _ ty d ?_ hnin'
        simp [LiveOps.alookup_dictSet_ne, hne, h]
      · refine ih _ _ ty d ?_ hnin'
        simp [LiveOps.alookup_dictSet_ne, hne, h]
      · refine ih _ _ ty d ?_ hnin'
        simp [LiveOps.alookup_dictSet_ne, hne, h]
      · refine ih _ _ ty d ?_ hnin'
        simp [LiveOps.alookup_dictSet_ne, hne, h]
      · exact ih ctx used ty d h hnin'

theorem LiveOps.selectLoop_required (tc : String → Nat) (avail : Int) :
    ∀ (rules : List LiveOps.CRule) (ctx : List (String × LiveOps.CtxData))
      (used : Int),
      (rules.map (fun r => r.type)).Nodup →
      (∀ t ∈ rules.map (fun r => r.type), LiveOps.alookup ctx t = none) →
      ∀ r ∈ rules, r.required = true →
      ∀ d, r.context_data = some d → LiveOps.ctxTruthy d = true →
      LiveOps.alookup (LiveOps.selectLoop tc avail rules ctx used).1 r.type
        = some d := by
  intro rules
  induction rules with
  | nil =>
    intro ctx used _ _ r hr
    exact absurd hr (List.not_mem_nil r)
  | cons r0 rest ih =>
    intro ctx used hnodup hclean r hr hreq d hcd ht
    rw [List.map_cons, List.nodup_cons] at hnodup
    obtain ⟨hnotin, hnodup'⟩ := hnodup
    rcases List.mem_cons.mp hr with rfl | hrrest
    · simp only [LiveOps.selectLoop, hcd]
      rw [if_pos ht]
      have hfit : used + (LiveOps.estimateTokens tc d : Int) ≤ avail
          ∨ r.required = true := Or.inr hreq
      rw [if_pos hfit]
      dsimp only
      have hc2 : ¬ (avail < used + (LiveOps.estimateTokens tc d : Int)
          ∧ ¬ r.required = true) := fun hc => hc.2 hreq
      rw [if_neg hc2]
      exact LiveOps.selectLoop_preserves tc avail rest _ _ r.type d
        (LiveOps.alookup_dictSet_self ctx r.type d) hnotin
    · have hne0 : r.type ≠ r0.type := by
        intro he
        exact hnotin (he ▸ (List.mem_map.mpr ⟨r, hrrest, rfl⟩))
      have hclean' : ∀ ctx' : List (String × LiveOps.CtxData),
          (∀ t, t ≠ r0.type → LiveOps.alookup ctx' t = LiveOps.alookup ctx t) →
          ∀ t ∈ rest.map (fun r => r.type), LiveOps.alookup ctx' t = none := by
        intro ctx' hp t htm
        have hnet : t ≠ r0.type := fun he => hnotin (he ▸ htm)
        rw [hp t hnet]
        exact hclean t (List.mem_cons_of_mem _ htm)
      cases hcd0 : r0.context_data with
      | none =>
        simp only [LiveOps.selectLoop, hcd0]
        exact ih ctx used hnodup' (hclean' ctx (fun _ _ => rfl)) r hrrest hreq
          d hcd ht
      | some cd0 =>
        simp only [LiveOps.selectLoop, hcd0]
        split_ifs with h1 h2 h3
        · refine ih _ _ hnodup' (hclean' _ ?_) r hrrest hreq d hcd ht
          intro t hnet
          simp [LiveOps.alookup_dictSet_ne, hnet]
        · refine ih _ _ hnodup' (hclean' _ ?_) r hrrest hreq d hcd ht
          intro t hnet
          simp [LiveOps.alookup_dictSet_ne, hnet]
        · refine ih _ _ hnodup' (hclean' _ ?_) r hrrest hreq d hcd ht
          intro t hnet
          simp [LiveOps.alookup_dictSet_ne, hnet]
        · refine ih _ _ hnodup' (hclean' _ ?_) r hrrest hreq d hcd ht
          intro t hnet
          simp [LiveOps.alookup_dictSet_ne, hnet]
        · exact ih ctx used hnodup' (hclean' ctx (fun _ _ => rfl)) r hrrest hreq
            d hcd ht

theorem LiveOps.contextTokens_cons (tc : String → Nat)
    (kv : String × LiveOps.CtxData) (l : List (String × LiveOps.CtxData)) :
    LiveOps.contextTokens tc (kv :: l)
      = (LiveOps.estimateTokens tc kv.2 : Int) + LiveOps.contextTokens tc l :=
  rfl

theorem LiveOps.contextTokens_aset_le (tc : String → Nat) :
    ∀ (l : List (String × LiveOps.CtxData)) (k : String) (v : LiveOps.CtxData),
      LiveOps.contextTokens tc (LiveOps.aset l k v)
        ≤ LiveOps.contextTokens tc l + (LiveOps.estimateTokens tc v : Int) := by
  intro l k v
  induction l with
  | nil =>
    simp only [LiveOps.aset, LiveOps.contextTokens, List.foldr_nil]
    omega
  | cons hd t ih =>
    obtain ⟨k', v'⟩ := hd
    by_cases h : k' = k
    · subst h
      rw [show LiveOps.aset ((k', v') :: t) k' v = (k', v) :: t from by
        simp [LiveOps.aset]]
      rw [LiveOps.contextTokens_cons, LiveOps.contextTokens_cons]
      dsimp only
      omega
    · rw [show LiveOps.aset ((k', v') :: t) k v = (k', v') :: LiveOps.aset t k v
        from by simp [LiveOps.aset, h]]
      rw [LiveOps.contextTokens_cons, LiveOps.contextTokens_cons]
      dsimp only
      omega

theorem LiveOps.contextTokens_append_single (tc : String → Nat) :
    ∀ (l : List (String × LiveOps.CtxData)) (k : String) (v : LiveOps.CtxData),
      LiveOps.contextTokens tc (l ++ [(k, v)])
        = LiveOps.contextTokens tc l + (LiveOps.estimateTokens tc v : Int) := by
  intro l k v
  induction l with
  | nil =>
    simp only [List.nil_append, LiveOps.contextTokens, List.foldr_cons,
      List.foldr_nil]
    omega
  | cons hd t ih =>
    rw [List.cons_append, LiveOps.contextTokens_cons, LiveOps.contextTokens_cons,
      ih]
    omega

theorem LiveOps.contextTokens_dictSet_le (tc : String → Nat)
    (l : List (String × LiveOps.CtxData)) (k : String) (v : LiveOps.CtxData) :
    LiveOps.contextTokens tc (LiveOps.dictSet l k v)
      ≤ LiveOps.contextTokens tc l + (LiveOps.estimateTokens tc v : Int) := by
  unfold LiveOps.dictSet
  by_cases hs : (LiveOps.alookup l k).isSome
  · rw [if_pos hs]
    exact LiveOps.contextTokens_aset_le tc l k v
  · rw [if_neg hs, LiveOps.contextTokens_append_single]

theorem LiveOps.selectLoop_nonreq_budget (tc : String → Nat) (avail : Int)
    (h0 : 0 ≤ avail) :
    ∀ (rules : List LiveOps.CRule), (∀ r ∈ rules, r.required = false) →
    ∀ (ctx : List (String × LiveOps.CtxData)) (used : Int),
      LiveOps.contextTokens tc ctx ≤ used → used ≤ avail →
      LiveOps.contextTokens tc (LiveOps.selectLoop tc avail rules ctx used).1
          ≤ (LiveOps.selectLoop tc avail rules ctx used).2 ∧
      (LiveOps.selectLoop tc avail rules ctx used).2 ≤ avail := by
  intro rules
  induction rules with
  | nil =>
    intro _ ctx used h1 h2
    exact ⟨h1, h2⟩
  | cons r rest ih =>
    intro hall ctx used h1 h2
    have hreq : r.required = false := hall r (List.mem_cons_self _ _)
    have hall' : ∀ r' ∈ rest, r'.required = false :=
      fun r' hr' => hall r' (List.mem_cons_of_mem _ hr')
    cases hcd : r.context_data with
    | none =>
      simp only [LiveOps.selectLoop, hcd]
      exact ih hall' ctx used h1 h2
    | some cd =>
      by_cases ht : LiveOps.ctxTruthy cd = true
      · by_cases hfit' : used + (LiveOps.estimateTokens tc cd : Int) ≤ avail
        · have hfit : used + (LiveOps.estimateTokens tc cd : Int) ≤ avail
              ∨ r.required = true := Or.inl hfit'
          simp only [LiveOps.selectLoop, hcd]
          rw [if_pos ht, if_pos hfit]
          dsimp only
          have hc2 : ¬ (avail < used + (LiveOps.estimateTokens tc cd : Int)
              ∧ ¬ r.required = true) :=
            fun hc => absurd hfit' (not_le.mpr hc.1)
          rw [if_neg hc2]
          refine ih hall' _ _ ?_ hfit'
          have := LiveOps.contextTokens_dictSet_le tc ctx r.type cd
          omega
        · have hfit : ¬ (used + (LiveOps.estimateTokens tc cd : Int) ≤ avail
              ∨ r.required = true) := by
            rintro (h | h)
            · exact hfit' h
            · rw [hreq] at h
              exact absurd h (by simp)
          simp only [LiveOps.selectLoop, hcd]
          rw [if_pos ht, if_neg hfit]
          dsimp only
          have hc2 : ¬ (avail < used ∧ ¬ r.required = true) :=
            fun hc => absurd h2 (not_le.mpr hc.1)
          rw [if_neg hc2]
          exact ih hall' ctx used h1 h2
      · simp only [LiveOps.selectLoop, hcd]
        rw [if_neg ht]
        exact ih hall' ctx used h1 h2

/-- C2 (amended): entries for rules marked `required` are always included
in full, whatever the budget (stated for policies whose rule types are
distinct, as the per-intent configurations are). The claimed bound — the
included non-required entries never cost more than
`max_tokens - reserved_tokens` — holds when no rule of the policy is
required (and the budget is nonnegative): then the running counter always
covers the included entries and never exceeds the budget. (After a
required rule has overrun the budget, the trim branch computes its budget
as `available - (used - context_tokens)` for an entry that was never
added, which can exceed the remaining budget — see the counterexample.) -/
theorem LiveOps.C2_budget (tc : String → Nat) (max_tokens reserved_tokens : Int)
    (rules : List LiveOps.CRule) :
    ((rules.map (fun r => r.type)).Nodup →
      ∀ r ∈ rules, r.required = true →
      ∀ d, r.context_data = some d → LiveOps.ctxTruthy d = true →
      LiveOps.alookup
          (LiveOps.select_context tc max_tokens reserved_tokens rules).1 r.type
        = some d) ∧
    ((∀ r ∈ rules, r.required = false) →
      0 ≤ max_tokens - reserved_tokens →
      LiveOps.contextTokens tc
          (LiveOps.select_context tc max_tokens reserved_tokens rules).1
        ≤ max_tokens - reserved_tokens) := by
  constructor
  · intro hnodup r hr hreq d hcd ht
    exact LiveOps.selectLoop_required tc (max_tokens - reserved_tokens) rules
      [] 0 hnodup (fun t _ => rfl) r hr hreq d hcd ht
  · intro hall h0
    have h := LiveOps.selectLoop_nonreq_budget tc (max_tokens - reserved_tokens)
      h0 rules hall [] 0 (le_refl 0) h0
    exact le_trans h.1 h.2

/-- Witness for C2 (amended): the required rule of `rulesC2` is included in
full despite exceeding the budget, and with only the non-required rule the
total stays within `10 - 0`. -/
theorem LiveOps.C2_budget_witness :
    LiveOps.alookup
        (LiveOps.select_context LiveOps.tokenEstimate 10 0 LiveOps.rulesC2).1 "a"
      = some (LiveOps.CtxData.atom LiveOps.s60) ∧
    LiveOps.contextTokens LiveOps.tokenEstimate
        (LiveOps.select_context LiveOps.tokenEstimate 10 0 LiveOps.rulesC2nr).1
      ≤ 10 - 0 := by
  constructor
  · exact (LiveOps.C2_budget LiveOps.tokenEstimate 10 0 LiveOps.rulesC2).1
      (by decide)
      { type := "a", required := true, context_data := some (.atom LiveOps.s60) }
      (List.mem_cons_self _ _) rfl _ rfl rfl
  · exact (LiveOps.C2_budget LiveOps.tokenEstimate 10 0 LiveOps.rulesC2nr).2
      (by decide) (by decide)
